import Mathlib

/-!
Verification development for the VPN miniapp backend (server/index.js):
the entitlement ledger (subscriptions), plan date arithmetic, payment
confirmation handlers, server allocation balancer, and the expiry
notifier.  Timestamps are modeled as milliseconds since the Unix epoch
(Int), matching JS Date.getTime and Postgres timestamptz at UTC.
-/

/-!
### ECMAScript Date arithmetic (UTC, proleptic Gregorian)

addPlanToDate in server/index.js advances a JS Date with setDate,
setMonth and setFullYear.  Civil conversions use the standard era-based
algorithms; the month and year setters extend linearly in the day
argument, which is exactly the ECMAScript MakeDay overflow behaviour
(for example Feb 31 normalizes to Mar 2 or Mar 3).  Lean Int division
and remainder are Euclidean, which for the positive divisors used here
agrees with the mathematical floor semantics of ECMAScript.
-/

def msPerDay : Int := 86400000

def isLeap (y : Int) : Bool := decide ((y % 4 = 0 ∧ y % 100 ≠ 0) ∨ y % 400 = 0)

def daysInMonth (y m : Int) : Int :=
  if m = 2 then (if isLeap y then 29 else 28)
  else if m = 4 ∨ m = 6 ∨ m = 9 ∨ m = 11 then 30
  else 31

/-- Day number (days since 1970-01-01) of a civil date; linear in `d`. -/
def daysFromCivil (y m d : Int) : Int :=
  let yy := if m ≤ 2 then y - 1 else y
  let era := yy / 400
  let yoe := yy - era * 400
  let mp := (m + 9) % 12
  let doy := (153 * mp + 2) / 5 + d - 1
  let doe := yoe * 365 + yoe / 4 - yoe / 100 + doy
  era * 146097 + doe - 719468

def cfdEra (z : Int) : Int := (z + 719468) / 146097

def cfdDoe (z : Int) : Int := z + 719468 - cfdEra z * 146097

def cfdYoe (z : Int) : Int :=
  (cfdDoe z - cfdDoe z / 1460 + cfdDoe z / 36524 - cfdDoe z / 146096) / 365

def cfdDoy (z : Int) : Int :=
  cfdDoe z - (365 * cfdYoe z + cfdYoe z / 4 - cfdYoe z / 100)

def cfdMp (z : Int) : Int := (5 * cfdDoy z + 2) / 153

/-- Civil date (year, month, day) of a day number. -/
def civilFromDays (z : Int) : Int × Int × Int :=
  let y := cfdYoe z + cfdEra z * 400
  let d := cfdDoy z - (153 * cfdMp z + 2) / 5 + 1
  let m := cfdMp z + (if cfdMp z < 10 then 3 else -9)
  (if m ≤ 2 then y + 1 else y, m, d)

def dayOfMs (t : Int) : Int := t / msPerDay

def msInDay (t : Int) : Int := t % msPerDay

/-- JS d.setDate(d.getDate() + n): adds exactly n days. -/
def jsAddDays (t n : Int) : Int := t + n * msPerDay

/-- JS d.setMonth(d.getMonth() + k): month arithmetic with year carry and
ECMAScript day-overflow normalization (linear extension of daysFromCivil). -/
def jsAddMonths (t k : Int) : Int :=
  let c := civilFromDays (dayOfMs t)
  let tm := c.2.1 - 1 + k
  daysFromCivil (c.1 + tm / 12) (tm % 12 + 1) c.2.2 * msPerDay + msInDay t

/-- JS d.setFullYear(d.getFullYear() + k). -/
def jsAddYears (t k : Int) : Int :=
  let c := civilFromDays (dayOfMs t)
  daysFromCivil (c.1 + k) c.2.1 c.2.2 * msPerDay + msInDay t

theorem daysInMonth_bounds (y m : Int) :
    28 ≤ daysInMonth y m ∧ daysInMonth y m ≤ 31 := by
  unfold daysInMonth
  split_ifs <;> omega

theorem dfc_feb (y d : Int) (hy : 1 ≤ y) :
    daysFromCivil y 3 d = daysFromCivil y 2 d + daysInMonth y 2 := by
  by_cases hl : (y % 4 = 0 ∧ y % 100 ≠ 0) ∨ y % 400 = 0
  · have hL : isLeap y = true := by unfold isLeap; exact decide_eq_true hl
    have h29 : daysInMonth y 2 = 29 := by unfold daysInMonth; rw [hL]; norm_num
    rw [h29]
    simp only [daysFromCivil]
    norm_num
    omega
  · have hL : isLeap y = false := by unfold isLeap; exact decide_eq_false hl
    have h28 : daysInMonth y 2 = 28 := by unfold daysInMonth; rw [hL]; norm_num
    rw [h28]
    simp only [daysFromCivil]
    norm_num
    omega

theorem dfc_step (y m d : Int) (h1 : 1 ≤ m) (h2 : m ≤ 11) (hy : 1 ≤ y) :
    daysFromCivil y (m + 1) d = daysFromCivil y m d + daysInMonth y m := by
  interval_cases m
  · simp only [daysFromCivil, daysInMonth]
    norm_num
    omega
  · exact_mod_cast dfc_feb y d hy
  · simp only [daysFromCivil, daysInMonth]
    norm_num
    omega
  · simp only [daysFromCivil, daysInMonth]
    norm_num
    omega
  · simp only [daysFromCivil, daysInMonth]
    norm_num
    omega
  · simp only [daysFromCivil, daysInMonth]
    norm_num
    omega
  · simp only [daysFromCivil, daysInMonth]
    norm_num
    omega
  · simp only [daysFromCivil, daysInMonth]
    norm_num
    omega
  · simp only [daysFromCivil, daysInMonth]
    norm_num
    omega
  · simp only [daysFromCivil, daysInMonth]
    norm_num
    omega
  · simp only [daysFromCivil, daysInMonth]
    norm_num
    omega

theorem dfc_year_step (y d : Int) (hy : 1 ≤ y) :
    daysFromCivil (y + 1) 1 d = daysFromCivil y 12 d + 31 := by
  simp only [daysFromCivil]
  split_ifs <;> omega

set_option maxHeartbeats 4000000 in
theorem yoe_key (doe b : Int) (h0 : 0 ≤ doe) (h1 : doe ≤ 146096)
    (hb0 : 0 ≤ b) (hb1 : b ≤ 399)
    (hlo : 365 * b ≤ doe - doe / 1460 + doe / 36524 - doe / 146096)
    (hhi : doe - doe / 1460 + doe / 36524 - doe / 146096 < 365 * (b + 1)) :
    365 * b + b / 4 - b / 100 ≤ doe ∧ doe - (365 * b + b / 4 - b / 100) ≤ 365 := by
  interval_cases b <;> omega

theorem cfd_stage_bounds (z : Int) (hz : 0 ≤ z) :
    0 ≤ cfdDoe z ∧ cfdDoe z ≤ 146096 ∧ 0 ≤ cfdEra z ∧
    0 ≤ cfdYoe z ∧ cfdYoe z ≤ 399 := by
  have hE : cfdEra z = (z + 719468) / 146097 := rfl
  have hD : cfdDoe z = z + 719468 - cfdEra z * 146097 := rfl
  have hY : cfdYoe z =
      (cfdDoe z - cfdDoe z / 1460 + cfdDoe z / 36524 - cfdDoe z / 146096) / 365 := rfl
  omega

theorem cfd_doy_bounds (z : Int) (hz : 0 ≤ z) :
    0 ≤ cfdDoy z ∧ cfdDoy z ≤ 365 := by
  obtain ⟨h0, h1, _, hb0, hb1⟩ := cfd_stage_bounds z hz
  have hY : cfdYoe z =
      (cfdDoe z - cfdDoe z / 1460 + cfdDoe z / 36524 - cfdDoe z / 146096) / 365 := rfl
  have hDoy : cfdDoy z =
      cfdDoe z - (365 * cfdYoe z + cfdYoe z / 4 - cfdYoe z / 100) := rfl
  have hk := yoe_key (cfdDoe z) (cfdYoe z) h0 h1 hb0 hb1 (by omega) (by omega)
  omega

theorem cfd_mp_day (z : Int) (hz : 0 ≤ z) :
    0 ≤ cfdMp z ∧ cfdMp z ≤ 11 ∧
    (153 * cfdMp z + 2) / 5 ≤ cfdDoy z ∧
    cfdDoy z - (153 * cfdMp z + 2) / 5 ≤ 30 := by
  obtain ⟨h0, h1⟩ := cfd_doy_bounds z hz
  have hM : cfdMp z = (5 * cfdDoy z + 2) / 153 := rfl
  omega

theorem civilFromDays_spec (z : Int) (hz : 0 ≤ z) :
    daysFromCivil (civilFromDays z).1 (civilFromDays z).2.1 (civilFromDays z).2.2 = z ∧
    1 ≤ (civilFromDays z).2.1 ∧ (civilFromDays z).2.1 ≤ 12 ∧
    1 ≤ (civilFromDays z).1 ∧
    1 ≤ (civilFromDays z).2.2 ∧ (civilFromDays z).2.2 ≤ 31 := by
  obtain ⟨hd0, hd1, he0, hy0, hy1⟩ := cfd_stage_bounds z hz
  obtain ⟨hm0, hm1, hx0, hx1⟩ := cfd_mp_day z hz
  have hE : cfdEra z = (z + 719468) / 146097 := rfl
  have hD : cfdDoe z = z + 719468 - cfdEra z * 146097 := rfl
  have hDoy : cfdDoy z =
      cfdDoe z - (365 * cfdYoe z + cfdYoe z / 4 - cfdYoe z / 100) := rfl
  have hdiv400 : (cfdYoe z + cfdEra z * 400) / 400 = cfdEra z := by omega
  have harg : cfdYoe z + cfdEra z * 400 - (cfdYoe z + cfdEra z * 400) / 400 * 400
      = cfdYoe z := by rw [hdiv400]; ring
  have hie : (cfdYoe z + cfdEra z * 400 - (cfdYoe z + cfdEra z * 400) / 400 * 400) / 4
      = cfdYoe z / 4 := by rw [harg]
  have hje : (cfdYoe z + cfdEra z * 400 - (cfdYoe z + cfdEra z * 400) / 400 * 400) / 100
      = cfdYoe z / 100 := by rw [harg]
  rcases lt_or_ge (cfdMp z) 10 with hmp | hmp
  · have hmod : (cfdMp z + 3 + 9) % 12 = cfdMp z := by omega
    have hdiv : (cfdMp z + 3 + 9) / 12 = 1 := by omega
    have hkd : (153 * ((cfdMp z + 3 + 9) % 12) + 2) / 5 = (153 * cfdMp z + 2) / 5 := by
      rw [hmod]
    simp only [civilFromDays, daysFromCivil]
    split_ifs <;> (try simp only [Int.add_sub_cancel]) <;> omega
  · have hmod : (cfdMp z + -9 + 9) % 12 = cfdMp z := by omega
    have hdiv : (cfdMp z + -9 + 9) / 12 = 0 := by omega
    have hkd : (153 * ((cfdMp z + -9 + 9) % 12) + 2) / 5 = (153 * cfdMp z + 2) / 5 := by
      rw [hmod]
    simp only [civilFromDays, daysFromCivil]
    split_ifs <;> (try simp only [Int.add_sub_cancel]) <;> omega

def nextYM (ym : Int × Int) : Int × Int :=
  if ym.2 = 12 then (ym.1 + 1, 1) else (ym.1, ym.2 + 1)

/-- Total day span of k consecutive calendar months starting at a given
year and month. -/
def monthSpan : Int × Int → Nat → Int
  | _, 0 => 0
  | ym, Nat.succ k => daysInMonth ym.1 ym.2 + monthSpan (nextYM ym) k

theorem dfc_jump (k : Nat) : ∀ y m d q r : Int, 1 ≤ y → 1 ≤ m → m ≤ 12 →
    q = (m - 1 + (k : Int)) / 12 → r = (m - 1 + (k : Int)) % 12 →
    daysFromCivil (y + q) (r + 1) d = daysFromCivil y m d + monthSpan (y, m) k := by
  induction k with
  | zero =>
    intro y m d q r hy h1 h2 hq hr
    have e1 : y + q = y := by omega
    have e2 : r + 1 = m := by omega
    rw [e1, e2]
    simp [monthSpan]
  | succ k ih =>
    intro y m d q r hy h1 h2 hq hr
    rcases eq_or_lt_of_le h2 with h12 | h12
    · subst h12
      have e1 : y + q = (y + 1) + (1 - 1 + (k : Int)) / 12 := by
        push_cast at hq
        omega
      have e2 : r + 1 = (1 - 1 + (k : Int)) % 12 + 1 := by
        push_cast at hr
        omega
      rw [e1, e2, ih (y + 1) 1 d _ _ (by omega) (by norm_num) (by norm_num) rfl rfl]
      have e3 : monthSpan (y, 12) (k + 1)
          = daysInMonth y 12 + monthSpan (nextYM (y, 12)) k := rfl
      have e4 : nextYM (y, 12) = (y + 1, 1) := by
        simp [nextYM]
      have e5 : daysInMonth y 12 = 31 := by norm_num [daysInMonth]
      rw [e3, e4, e5, dfc_year_step y d hy]
      ring
    · have e1 : y + q = y + ((m + 1) - 1 + (k : Int)) / 12 := by
        push_cast at hq
        omega
      have e2 : r + 1 = ((m + 1) - 1 + (k : Int)) % 12 + 1 := by
        push_cast at hr
        omega
      rw [e1, e2, ih y (m + 1) d _ _ hy (by omega) (by omega) rfl rfl]
      have e3 : monthSpan (y, m) (k + 1)
          = daysInMonth y m + monthSpan (nextYM (y, m)) k := rfl
      have e4 : nextYM (y, m) = (y, m + 1) := by
        unfold nextYM
        rw [if_neg (by simpa using (by omega : ¬ m = 12))]
      rw [e3, e4, dfc_step y m d h1 (by omega) hy]
      ring

theorem monthSpan_bounds (k : Nat) : ∀ ym : Int × Int,
    28 * (k : Int) ≤ monthSpan ym k ∧ monthSpan ym k ≤ 31 * (k : Int) := by
  induction k with
  | zero =>
    intro ym
    simp [monthSpan]
  | succ k ih =>
    intro ym
    have hd := daysInMonth_bounds ym.1 ym.2
    have hs := ih (nextYM ym)
    have e3 : monthSpan ym (k + 1)
        = daysInMonth ym.1 ym.2 + monthSpan (nextYM ym) k := by
      cases ym
      rfl
    rw [e3]
    push_cast
    omega

theorem jsAddMonths_spec (t : Int) (k : Nat) (ht : 0 ≤ t) :
    jsAddMonths t (k : Int)
      = t + monthSpan ((civilFromDays (dayOfMs t)).1,
          (civilFromDays (dayOfMs t)).2.1) k * msPerDay ∧
    dayOfMs (jsAddMonths t (k : Int))
      = dayOfMs t + monthSpan ((civilFromDays (dayOfMs t)).1,
          (civilFromDays (dayOfMs t)).2.1) k := by
  have hz : 0 ≤ dayOfMs t := by
    unfold dayOfMs msPerDay
    exact Int.ediv_nonneg ht (by norm_num)
  obtain ⟨hrt, h1, h2, hy, _, _⟩ := civilFromDays_spec (dayOfMs t) hz
  have hj := dfc_jump k (civilFromDays (dayOfMs t)).1 (civilFromDays (dayOfMs t)).2.1
    (civilFromDays (dayOfMs t)).2.2 _ _ hy h1 h2 rfl rfl
  have hval : jsAddMonths t (k : Int)
      = daysFromCivil
          ((civilFromDays (dayOfMs t)).1
            + ((civilFromDays (dayOfMs t)).2.1 - 1 + (k : Int)) / 12)
          (((civilFromDays (dayOfMs t)).2.1 - 1 + (k : Int)) % 12 + 1)
          (civilFromDays (dayOfMs t)).2.2 * msPerDay + msInDay t := rfl
  rw [hval, hj, hrt]
  have hsplit : dayOfMs t * msPerDay + msInDay t = t := by
    unfold dayOfMs msInDay msPerDay
    omega
  have hr0 : 0 ≤ msInDay t := by
    unfold msInDay msPerDay
    omega
  have hr1 : msInDay t < msPerDay := by
    unfold msInDay msPerDay
    omega
  constructor
  · nlinarith [hsplit]
  · unfold dayOfMs msPerDay at hsplit ⊢
    unfold msPerDay at hr1
    omega

theorem jsAddMonths_bounds (t : Int) (k : Nat) (ht : 0 ≤ t) :
    t + 28 * (k : Int) * msPerDay ≤ jsAddMonths t (k : Int) ∧
    jsAddMonths t (k : Int) ≤ t + 31 * (k : Int) * msPerDay ∧
    dayOfMs t + 28 * (k : Int) ≤ dayOfMs (jsAddMonths t (k : Int)) ∧
    dayOfMs (jsAddMonths t (k : Int)) ≤ dayOfMs t + 31 * (k : Int) := by
  obtain ⟨hv, hd⟩ := jsAddMonths_spec t k ht
  obtain ⟨hlo, hhi⟩ := monthSpan_bounds k
    ((civilFromDays (dayOfMs t)).1, (civilFromDays (dayOfMs t)).2.1)
  unfold msPerDay at hv ⊢
  omega

theorem jsAddYears_one (t : Int) (ht : 0 ≤ t) :
    jsAddYears t 1 = jsAddMonths t 12 := by
  have hz : 0 ≤ dayOfMs t := by
    unfold dayOfMs msPerDay
    exact Int.ediv_nonneg ht (by norm_num)
  obtain ⟨hrt, h1, h2, hy, _, _⟩ := civilFromDays_spec (dayOfMs t) hz
  have e1 : (civilFromDays (dayOfMs t)).1
      + ((civilFromDays (dayOfMs t)).2.1 - 1 + 12) / 12
      = (civilFromDays (dayOfMs t)).1 + 1 := by omega
  have e2 : ((civilFromDays (dayOfMs t)).2.1 - 1 + 12) % 12 + 1
      = (civilFromDays (dayOfMs t)).2.1 := by omega
  show daysFromCivil ((civilFromDays (dayOfMs t)).1 + 1) (civilFromDays (dayOfMs t)).2.1
      (civilFromDays (dayOfMs t)).2.2 * msPerDay + msInDay t
    = daysFromCivil
        ((civilFromDays (dayOfMs t)).1 + ((civilFromDays (dayOfMs t)).2.1 - 1 + 12) / 12)
        (((civilFromDays (dayOfMs t)).2.1 - 1 + 12) % 12 + 1)
        (civilFromDays (dayOfMs t)).2.2 * msPerDay + msInDay t
  rw [e1, e2]

/-!
### Plan catalog and plan date arithmetic (server/index.js)
-/

structure Tariff where
  tid : Int
  code : String
  price_rub : Int
  duration_days : Int
deriving DecidableEq

/-- CONFIG_TARIFFS from server/index.js (titles omitted). -/
def CONFIG_TARIFFS : List Tariff :=
  [⟨1, "7d", 50, 7⟩, ⟨2, "1m", 99, 30⟩, ⟨3, "3m", 299, 90⟩,
   ⟨4, "6m", 599, 180⟩, ⟨5, "12m", 1099, 365⟩]

/-- STARS_PRICE from server/index.js. -/
def STARS_PRICE : List (String × Int) :=
  [("7d", 50), ("1m", 390), ("3m", 990), ("6m", 1790), ("12m", 2990)]

/-- normalizePlan from server/index.js. -/
def normalizePlan (p : String) : String :=
  if p = "7d" then "w" else if p = "12m" then "1y" else p

/-- The switch body of addPlanToDate from server/index.js, applied to the
clamped date. -/
def planAdvance (plan : String) (t : Int) : Int :=
  if plan = "w" then jsAddDays t 7
  else if plan = "1m" then jsAddMonths t 1
  else if plan = "3m" then jsAddMonths t 3
  else if plan = "6m" then jsAddMonths t 6
  else if plan = "1y" then jsAddYears t 1
  else jsAddMonths t 1

/-- addPlanToDate from server/index.js: clamps the base date to
Math.max(base, Date.now()) and advances it by the plan length. -/
def addPlanToDate (plan : String) (base now : Int) : Int :=
  planAdvance plan (max base now)

/-- Smallest and largest possible day span of each (normalized) plan code;
an unrecognized code falls into the default one-month branch. -/
def planLoDays (p : String) : Int :=
  if p = "w" then 7 else if p = "3m" then 84
  else if p = "6m" then 168 else if p = "1y" then 336 else 28

def planHiDays (p : String) : Int :=
  if p = "w" then 7 else if p = "3m" then 93
  else if p = "6m" then 186 else if p = "1y" then 372 else 31

theorem jsAddMonths_exists (t : Int) (k : Nat) (ht : 0 ≤ t) :
    ∃ s : Int, jsAddMonths t (k : Int) = t + s * msPerDay ∧
      28 * (k : Int) ≤ s ∧ s ≤ 31 * (k : Int) := by
  obtain ⟨hv, _⟩ := jsAddMonths_spec t k ht
  obtain ⟨hlo, hhi⟩ := monthSpan_bounds k
    ((civilFromDays (dayOfMs t)).1, (civilFromDays (dayOfMs t)).2.1)
  exact ⟨_, hv, hlo, hhi⟩

theorem planAdvance_exists (p : String) (t : Int) (ht : 0 ≤ t) :
    ∃ s : Int, planAdvance p t = t + s * msPerDay ∧
      planLoDays p ≤ s ∧ s ≤ planHiDays p ∧ 7 ≤ s := by
  by_cases h1 : p = "w"
  · refine ⟨7, ?_, ?_, ?_, ?_⟩ <;>
      simp [planAdvance, planLoDays, planHiDays, h1, jsAddDays]
  · by_cases h2 : p = "1m"
    · obtain ⟨s, hv, hlo, hhi⟩ := jsAddMonths_exists t 1 ht
      norm_num at hv hlo hhi
      refine ⟨s, ?_, ?_, ?_, by omega⟩ <;>
        simp [planAdvance, planLoDays, planHiDays, h1, h2]
      · exact hv
      · omega
      · omega
    · by_cases h3 : p = "3m"
      · obtain ⟨s, hv, hlo, hhi⟩ := jsAddMonths_exists t 3 ht
        norm_num at hv hlo hhi
        refine ⟨s, ?_, ?_, ?_, by omega⟩ <;>
          simp [planAdvance, planLoDays, planHiDays, h1, h2, h3]
        · exact hv
        · omega
        · omega
      · by_cases h4 : p = "6m"
        · obtain ⟨s, hv, hlo, hhi⟩ := jsAddMonths_exists t 6 ht
          norm_num at hv hlo hhi
          refine ⟨s, ?_, ?_, ?_, by omega⟩ <;>
            simp [planAdvance, planLoDays, planHiDays, h1, h2, h3, h4]
          · exact hv
          · omega
          · omega
        · by_cases h5 : p = "1y"
          · obtain ⟨s, hv, hlo, hhi⟩ := jsAddMonths_exists t 12 ht
            norm_num at hv hlo hhi
            refine ⟨s, ?_, ?_, ?_, by omega⟩ <;>
              simp [planAdvance, planLoDays, planHiDays, h1, h2, h3, h4, h5]
            · rw [jsAddYears_one t ht]
              exact hv
            · omega
            · omega
          · obtain ⟨s, hv, hlo, hhi⟩ := jsAddMonths_exists t 1 ht
            norm_num at hv hlo hhi
            refine ⟨s, ?_, ?_, ?_, by omega⟩ <;>
              simp [planAdvance, planLoDays, planHiDays, h1, h2, h3, h4, h5]
            · exact hv
            · omega
            · omega

theorem planAdvance_pos (p : String) (t : Int) (ht : 0 ≤ t) :
    t + 7 * msPerDay ≤ planAdvance p t := by
  obtain ⟨s, hv, _, _, h7⟩ := planAdvance_exists p t ht
  rw [hv]
  unfold msPerDay
  nlinarith

/-!
### Database state model

Association lists keyed by primary key model the Postgres tables used by
the entitlement, allocation and notification logic.  The server list is
kept in created_at ascending order, the order produced by the
pickServerForUser query.
-/

def alookup {κ α : Type} [DecidableEq κ] (k : κ) (l : List (κ × α)) : Option α :=
  (l.find? (fun e => e.1 = k)).map (fun e => e.2)

/-- Upsert keyed by primary key: replace the existing row in place or
append a new one (insert ... on conflict do update). -/
def aupsert {κ α : Type} [DecidableEq κ] (k : κ) (v : α) : List (κ × α) → List (κ × α)
  | [] => [(k, v)]
  | e :: rest => if e.1 = k then (k, v) :: rest else e :: aupsert k v rest

/-- Row of the subscriptions table; untilTs models the `until` column. -/
structure Subscription where
  plan : String
  untilTs : Int
deriving DecidableEq

/-- Row of the vless_clients table (uuid modeled as Int, label omitted). -/
structure VlessClient where
  uuid : Int
  expires_at : Int
deriving DecidableEq

/-- Row of the apays_orders table (raw_response and timestamps omitted). -/
structure ApaysOrder where
  user_id : Int
  plan : String
  amount_rub : Int
  status : String
deriving DecidableEq

/-- Row of the servers table: id, active, and (config->>'slot_limit')::int,
which is NULL when the config has no slot_limit. -/
structure Server where
  sid : Int
  active : Bool
  slotLimit : Option Int
deriving DecidableEq

/-- Row of the payments table. -/
structure Payment where
  user_id : Int
  plan : String
  amount_rub : Int
  amount_stars : Int
deriving DecidableEq

/-- The relational state owned by the backend.  sentLog records the
Telegram notifications actually handed to the bot (not a table; it models
the observable effect of notifySubExpiring and notifySubExpired). -/
structure DB where
  subscriptions : List (Int × Subscription)
  vless : List (Int × VlessClient)
  freeTrials : List Int
  apaysOrders : List (String × ApaysOrder)
  servers : List Server
  allocations : List (Int × Int)
  payments : List Payment
  subNotifications : List (Int × String × Int)
  sentLog : List (Int × String × Int)
deriving DecidableEq

/-!
### Allocation balancer (pickServerForUser, ensureUserServer)
-/

/-- Current occupancy of a server: count of server_allocations rows
referencing it. -/
def occupancy (allocs : List (Int × Int)) (sid : Int) : Int :=
  ((allocs.filter (fun a => a.2 = sid)).length : Int)

/-- The selection loop of pickServerForUser: the accumulator carries
(best, bestLoad); bestLoad none plays the role of Infinity. -/
def pickGo (allocs : List (Int × Int)) : List Server → Option (Int × Int) → Option Int
  | [], acc => acc.map (fun b => b.1)
  | s :: rest, acc =>
    let used := occupancy allocs s.sid
    let limit := s.slotLimit.getD 0
    if limit ≠ 0 ∧ used ≥ limit then pickGo allocs rest acc
    else
      match acc with
      | none => pickGo allocs rest (some (s.sid, used))
      | some b => if used < b.2 then pickGo allocs rest (some (s.sid, used))
                  else pickGo allocs rest (some b)

/-- pickServerForUser from server/index.js: scan the active servers in
created_at order for the least occupied one with a free slot. -/
def pickServerForUser (servers : List Server) (allocs : List (Int × Int)) : Option Int :=
  pickGo allocs (servers.filter (fun s => s.active)) none

def findServer (servers : List Server) (sid : Int) : Option Server :=
  servers.find? (fun s => s.sid = sid)

/-- The reassignment tail of ensureUserServer: pick a server and upsert
the allocation row. -/
def ensureReassign (userId : Int) (db : DB) : Option Int × DB :=
  match pickServerForUser db.servers db.allocations with
  | none => (none, db)
  | some next => (some next, { db with allocations := aupsert userId next db.allocations })

/-- ensureUserServer from server/index.js: keep a recorded allocation to
an active server whose occupancy has not passed its slot_limit (no limit
or zero limit means unlimited), otherwise pick a replacement. -/
def ensureUserServer (userId : Int) (db : DB) : Option Int × DB :=
  match alookup userId db.allocations with
  | some sid =>
    match findServer db.servers sid with
    | some s =>
      if s.active ∧ (s.slotLimit.getD 0 = 0 ∨ occupancy db.allocations sid ≤ s.slotLimit.getD 0)
      then (some sid, db)
      else ensureReassign userId db
    | none => ensureReassign userId db
  | none => ensureReassign userId db

/-!
### Entitlement ledger (grantSubscription) and subscription endpoints
-/

/-- grantSubscription from server/index.js.  The uuidv4 value generated
for a fresh vless client is random in the source; it is modeled
deterministically (its value is never inspected by any logic).  The
Telegram activation message is out of scope. -/
def grantSubscription (userId : Int) (plan : String) (now : Int) (db : DB) : Int × DB :=
  let p := normalizePlan plan
  let base := match alookup userId db.subscriptions with
    | some s => if s.untilTs > now then s.untilTs else now
    | none => now
  let u := addPlanToDate p base now
  let db1 := { db with subscriptions := aupsert userId ⟨p, u⟩ db.subscriptions }
  let uu := match alookup userId db1.vless with
    | some v => v.uuid
    | none => userId
  let db2 := { db1 with vless := aupsert userId ⟨uu, u⟩ db1.vless }
  (u, (ensureUserServer userId db2).2)

/-- Response of GET /api/sub/me. -/
structure SubMeResp where
  active : Bool
  untilTs : Option Int
  plan : Option String
  trialEligible : Bool
deriving DecidableEq

/-- GET /api/sub/me from server/index.js (read only). -/
def apiSubMe (userId : Int) (now : Int) (db : DB) : SubMeResp :=
  let row := alookup userId db.subscriptions
  let act : Bool := match row with
    | some s => s.untilTs > now
    | none => false
  { active := act,
    untilTs := if act then (row.map (fun s => s.untilTs)) else none,
    plan := row.map (fun s => s.plan),
    trialEligible := userId ∉ db.freeTrials }

/-- GET /api/sub/cancelMe from server/index.js: update subscriptions set
until = now() - interval '1 second' where user_id = $1.  Touches no other
table. -/
def setUntil (userId t : Int) (subs : List (Int × Subscription)) :
    List (Int × Subscription) :=
  subs.map (fun e => if e.1 = userId then (e.1, ⟨e.2.plan, t⟩) else e)

def setVlessExpiry (userId t : Int) (rows : List (Int × VlessClient)) :
    List (Int × VlessClient) :=
  rows.map (fun e => if e.1 = userId then (e.1, ⟨e.2.uuid, t⟩) else e)

def apiCancelMe (userId : Int) (now : Int) (db : DB) : DB :=
  { db with subscriptions := setUntil userId (now - 1000) db.subscriptions }

/-- POST /admin/sub/cancel from server/index.js: same subscriptions update
plus immediate invalidation of the vless_clients row. -/
def adminSubCancel (userId : Int) (now : Int) (db : DB) : DB :=
  { db with
    subscriptions := setUntil userId (now - 1000) db.subscriptions,
    vless := setVlessExpiry userId (now - 1000) db.vless }

inductive TrialResult where
  | alreadyClaimed
  | alreadyActive
  | ok
deriving DecidableEq

/-- POST /api/sub/claimTrial from server/index.js: reject when a
free_trials row exists or the subscription is still active; otherwise
insert the free_trials row (on conflict do nothing) and grant plan 1m. -/
def apiClaimTrial (userId : Int) (now : Int) (db : DB) : TrialResult × DB :=
  if userId ∈ db.freeTrials then (.alreadyClaimed, db)
  else
    let act : Bool := match alookup userId db.subscriptions with
      | some s => s.untilTs > now
      | none => false
    if act then (.alreadyActive, db)
    else
      let ft := if userId ∈ db.freeTrials then db.freeTrials else db.freeTrials ++ [userId]
      let db1 := { db with freeTrials := ft }
      (.ok, (grantSubscription userId "1m" now db1).2)

/-!
### Payment confirmation handlers
-/

def starsPrice (p : String) : Int := (alookup p STARS_PRICE).getD 0

/-- ASCII lower-casing of a character, the behaviour of the JS
toLowerCase call on the ASCII status strings involved. -/
def lowerChar : Char → Char
  | 'A' => 'a' | 'B' => 'b' | 'C' => 'c' | 'D' => 'd' | 'E' => 'e' | 'F' => 'f'
  | 'G' => 'g' | 'H' => 'h' | 'I' => 'i' | 'J' => 'j' | 'K' => 'k' | 'L' => 'l'
  | 'M' => 'm' | 'N' => 'n' | 'O' => 'o' | 'P' => 'p' | 'Q' => 'q' | 'R' => 'r'
  | 'S' => 's' | 'T' => 't' | 'U' => 'u' | 'V' => 'v' | 'W' => 'w' | 'X' => 'x'
  | 'Y' => 'y' | 'Z' => 'z'
  | c => c

def jsToLowerCase (s : String) : String := String.mk (s.data.map lowerChar)

inductive PayResult where
  | notFound
  | ok
deriving DecidableEq

/-- POST /api/pay/apays-callback from server/index.js, after signature
verification, for a delivery with the given status.  An order already in
status paid short-circuits to 200 ok with no further effect; an approved
order is marked paid, a payment row is recorded, and the subscription is
granted; any other status marks the order failed. -/
def apaysCallback (order_id : String) (status : String) (now : Int) (db : DB) :
    PayResult × DB :=
  match alookup order_id db.apaysOrders with
  | none => (.notFound, db)
  | some o =>
    if o.status = "paid" then (.ok, db)
    else if jsToLowerCase status = "approved" then
      let ords := aupsert order_id { o with status := "paid" } db.apaysOrders
      let db1 := { db with apaysOrders := ords }
      let pays := db1.payments ++ [⟨o.user_id, o.plan, o.amount_rub, 0⟩]
      let db2 := { db1 with payments := pays }
      (.ok, (grantSubscription o.user_id o.plan now db2).2)
    else
      let ords := aupsert order_id { o with status := "failed" } db.apaysOrders
      (.ok, { db with apaysOrders := ords })

/-- POST /api/pay/confirm from server/index.js (Stars confirmation relayed
by the bot), for a delivery with both arguments present: grants the
subscription unconditionally and records a payment row. -/
def apiPayConfirm (userId : Int) (plan : String) (now : Int) (db : DB) : Int × DB :=
  let r := grantSubscription userId plan now db
  (r.1, { r.2 with payments := r.2.payments ++ [⟨userId, plan, 0, starsPrice plan⟩] })

/-!
### VPN access endpoints (read only)
-/

/-- GET /api/vpn/link from server/index.js: the response is modeled by the
(uuid, expires_at) pair of an unexpired vless row, none when missing or
expired. -/
def apiVpnLink (userId : Int) (now : Int) (db : DB) : Option (Int × Int) :=
  match alookup userId db.vless with
  | some v => if v.expires_at > now then some (v.uuid, v.expires_at) else none
  | none => none

/-- GET /api/vpn/clients from server/index.js: the active-clients sync
list handed to the VPS, one row per vless client with expires_at in the
future. -/
def apiVpnClients (now : Int) (db : DB) : List (Int × Int) :=
  (db.vless.filter (fun e => e.2.expires_at > now)).map (fun e => (e.1, e.2.uuid))

/-!
### Expiry notifier (runExpiryNotifierOnce)

The three milestone queries of runExpiryNotifierOnce select subscription
rows due for a reminder and not yet recorded in sub_notifications; each
selected row is notified (sentLog) and recorded with insert ... on
conflict do nothing.  The bot send is modeled as succeeding; dates are
day numbers (UTC), matching date(until) at timezone UTC.
-/

def sel3 (now : Int) (s : Subscription) : Bool :=
  decide (s.untilTs > now ∧ dayOfMs s.untilTs = dayOfMs (now + 3 * msPerDay))

def sel1 (now : Int) (s : Subscription) : Bool :=
  decide (s.untilTs > now ∧ dayOfMs s.untilTs = dayOfMs (now + 1 * msPerDay))

def sel0 (now : Int) (s : Subscription) : Bool :=
  decide (s.untilTs ≤ now)

/-- Rows returned by one milestone query: subscriptions passing the
milestone condition with no sub_notifications row for
(user_id, kind, date(until)). -/
def dueRows (subs : List (Int × Subscription)) (notifs : List (Int × String × Int))
    (kind : String) (sel : Subscription → Bool) : List (Int × Int) :=
  subs.filterMap (fun e =>
    if sel e.2 ∧ (e.1, kind, dayOfMs e.2.untilTs) ∉ notifs
    then some (e.1, dayOfMs e.2.untilTs) else none)

/-- One loop iteration: send the reminder, then insert the
sub_notifications row (on conflict do nothing). -/
def recordNotif (tr : Int × String × Int) (db : DB) : DB :=
  let sl := db.sentLog ++ [tr]
  let sn := if tr ∈ db.subNotifications then db.subNotifications
            else db.subNotifications ++ [tr]
  { db with sentLog := sl, subNotifications := sn }

def notifyStep (kind : String) (rows : List (Int × Int)) (db : DB) : DB :=
  rows.foldl (fun acc r => recordNotif (r.1, kind, r.2) acc) db

/-- runExpiryNotifierOnce from server/index.js: the 3-day, 1-day and
expired milestones, each query running against the state left by the
previous loop. -/
def runExpiryNotifierOnce (now : Int) (db : DB) : DB :=
  let db3 := notifyStep "3d"
    (dueRows db.subscriptions db.subNotifications "3d" (sel3 now)) db
  let db1 := notifyStep "1d"
    (dueRows db3.subscriptions db3.subNotifications "1d" (sel1 now)) db3
  notifyStep "expired"
    (dueRows db1.subscriptions db1.subNotifications "expired" (sel0 now)) db1

/-!
### Association list and well-formedness lemmas
-/

theorem alookup_cons {κ α : Type} [DecidableEq κ] (e : κ × α) (l : List (κ × α))
    (k : κ) : alookup k (e :: l) = if e.1 = k then some e.2 else alookup k l := by
  unfold alookup
  by_cases h : e.1 = k
  · rw [List.find?_cons_of_pos _ (by simpa using h), if_pos h]
    rfl
  · rw [List.find?_cons_of_neg _ (by simpa using h), if_neg h]

theorem aupsert_cons {κ α : Type} [DecidableEq κ] (k : κ) (v : α) (e : κ × α)
    (rest : List (κ × α)) :
    aupsert k v (e :: rest) = if e.1 = k then (k, v) :: rest
      else e :: aupsert k v rest := rfl

theorem alookup_aupsert_self {κ α : Type} [DecidableEq κ] (k : κ) (v : α)
    (l : List (κ × α)) : alookup k (aupsert k v l) = some v := by
  induction l with
  | nil => simp [aupsert, alookup_cons, alookup]
  | cons e rest ih =>
    rw [aupsert_cons]
    by_cases h : e.1 = k
    · rw [if_pos h, alookup_cons]
      simp
    · rw [if_neg h, alookup_cons, if_neg h]
      exact ih

theorem alookup_aupsert_other {κ α : Type} [DecidableEq κ] (k k' : κ) (v : α)
    (l : List (κ × α)) (hne : k' ≠ k) :
    alookup k' (aupsert k v l) = alookup k' l := by
  induction l with
  | nil =>
    show alookup k' [(k, v)] = alookup k' []
    rw [alookup_cons, if_neg (fun h => hne h.symm)]
  | cons e rest ih =>
    rw [aupsert_cons]
    by_cases h : e.1 = k
    · rw [if_pos h, alookup_cons, alookup_cons]
      rw [if_neg (show ¬ (k, v).1 = k' from fun hh => hne hh.symm)]
      rw [if_neg (show ¬ e.1 = k' from by rw [h]; exact fun hh => hne hh.symm)]
    · rw [if_neg h, alookup_cons, alookup_cons, ih]
theorem keys_aupsert {κ α : Type} [DecidableEq κ] (k : κ) (v : α)
    (l : List (κ × α)) :
    (aupsert k v l).map Prod.fst = l.map Prod.fst
      ∨ (aupsert k v l).map Prod.fst = l.map Prod.fst ++ [k] := by
  induction l with
  | nil => simp [aupsert]
  | cons e rest ih =>
    by_cases h : e.1 = k
    · left
      simp [aupsert, h]
    · rcases ih with ih | ih
      · left
        simp [aupsert, if_neg h, ih]
      · right
        simp [aupsert, if_neg h, ih]

theorem aupsert_mem_keys {κ α : Type} [DecidableEq κ] (k : κ) (v : α)
    (l : List (κ × α)) (hmem : k ∈ l.map Prod.fst) :
    (aupsert k v l).map Prod.fst = l.map Prod.fst := by
  induction l with
  | nil => simp at hmem
  | cons e rest ih =>
    by_cases h : e.1 = k
    · simp [aupsert, h]
    · have : k ∈ rest.map Prod.fst := by
        simp only [List.map_cons, List.mem_cons] at hmem
        rcases hmem with hmem | hmem
        · exact absurd hmem.symm h
        · exact hmem
      simp [aupsert, if_neg h, ih this]

theorem nodup_keys_aupsert {κ α : Type} [DecidableEq κ] (k : κ) (v : α)
    (l : List (κ × α)) (hnd : (l.map Prod.fst).Nodup) :
    ((aupsert k v l).map Prod.fst).Nodup := by
  by_cases hmem : k ∈ l.map Prod.fst
  · rw [aupsert_mem_keys k v l hmem]
    exact hnd
  · rcases keys_aupsert k v l with h | h
    · rw [h]; exact hnd
    · rw [h, List.nodup_append]
      refine ⟨hnd, List.nodup_singleton k, ?_⟩
      intro a ha hb
      rw [List.mem_singleton] at hb
      subst hb
      exact hmem ha

/-!
### Shape lemmas for the state-changing operations
-/

/-- The base date grantSubscription extends from: the stored expiry when
still in the future, otherwise now. -/
def grantBase (userId : Int) (now : Int) (db : DB) : Int :=
  match alookup userId db.subscriptions with
  | some s => if s.untilTs > now then s.untilTs else now
  | none => now

def grantUntil (userId : Int) (plan : String) (now : Int) (db : DB) : Int :=
  addPlanToDate (normalizePlan plan) (grantBase userId now db) now

def grantUuid (userId : Int) (db : DB) : Int :=
  match alookup userId db.vless with
  | some v => v.uuid
  | none => userId

theorem ensureUserServer_shape (u : Int) (db : DB) :
    ∃ allocs, (ensureUserServer u db).2 = { db with allocations := allocs } := by
  unfold ensureUserServer ensureReassign
  repeat' split
  all_goals first
    | exact ⟨db.allocations, rfl⟩
    | exact ⟨_, rfl⟩

theorem grantSubscription_eq (userId : Int) (plan : String) (now : Int) (db : DB) :
    grantSubscription userId plan now db
      = (grantUntil userId plan now db,
         (ensureUserServer userId
           { db with
             subscriptions := aupsert userId
               ⟨normalizePlan plan, grantUntil userId plan now db⟩ db.subscriptions,
             vless := aupsert userId
               ⟨grantUuid userId db, grantUntil userId plan now db⟩ db.vless }).2) := rfl

theorem grantSubscription_state (userId : Int) (plan : String) (now : Int) (db : DB) :
    ∃ allocs, (grantSubscription userId plan now db).2
      = { db with
          subscriptions := aupsert userId
            ⟨normalizePlan plan, grantUntil userId plan now db⟩ db.subscriptions,
          vless := aupsert userId
            ⟨grantUuid userId db, grantUntil userId plan now db⟩ db.vless,
          allocations := allocs } := by
  rw [grantSubscription_eq]
  exact ensureUserServer_shape userId _

theorem alookup_map_update_self {α : Type} (userId : Int) (f : α → α)
    (l : List (Int × α)) (s : α)
    (h : alookup userId l = some s) :
    alookup userId (l.map (fun e => if e.1 = userId then (e.1, f e.2) else e))
      = some (f s) := by
  induction l with
  | nil => simp [alookup] at h
  | cons e rest ih =>
    rw [alookup_cons] at h
    by_cases he : e.1 = userId
    · rw [if_pos he] at h
      cases h
      simp only [List.map_cons, if_pos he, alookup_cons]
    · rw [if_neg he] at h
      simp only [List.map_cons, if_neg he, alookup_cons, if_neg he]
      exact ih h

theorem alookup_map_update_other {α : Type} (userId u2 : Int) (f : α → α)
    (l : List (Int × α)) (hne : u2 ≠ userId) :
    alookup u2 (l.map (fun e => if e.1 = userId then (e.1, f e.2) else e))
      = alookup u2 l := by
  induction l with
  | nil => rfl
  | cons e rest ih =>
    by_cases he : e.1 = userId
    · have h1 : ¬ (e.1 = u2) := by omega
      simp only [List.map_cons, if_pos he, alookup_cons]
      rw [if_neg (by simpa using h1), if_neg h1]
      exact ih
    · simp only [List.map_cons, if_neg he, alookup_cons]
      by_cases h2 : e.1 = u2
      · rw [if_pos h2, if_pos h2]
      · rw [if_neg h2, if_neg h2]
        exact ih

def subActive (userId now : Int) (db : DB) : Bool :=
  match alookup userId db.subscriptions with
  | some s => s.untilTs > now
  | none => false

def dbEmpty : DB := ⟨[], [], [], [], [], [], [], [], []⟩

/-- C3: cancellation sets the expiry of the existing subscriptions row to
one second before now and keeps the row; immediately afterwards the
status endpoint reports active = false with no expiry, and any later
extension computes its base from the then-current time, not from the
stored expiry. -/
theorem claim_C3_cancel (userId now t2 : Int) (db : DB) (s : Subscription)
    (hrow : alookup userId db.subscriptions = some s) (h2 : now ≤ t2) :
    alookup userId (apiCancelMe userId now db).subscriptions
      = some ⟨s.plan, now - 1000⟩ ∧
    (apiSubMe userId now (apiCancelMe userId now db)).active = false ∧
    (apiSubMe userId now (apiCancelMe userId now db)).untilTs = none ∧
    grantBase userId t2 (apiCancelMe userId now db) = t2 := by
  have hl : alookup userId (apiCancelMe userId now db).subscriptions
      = some ⟨s.plan, now - 1000⟩ := by
    show alookup userId (setUntil userId (now - 1000) db.subscriptions) = _
    unfold setUntil
    exact alookup_map_update_self userId
      (fun x => (⟨x.plan, now - 1000⟩ : Subscription)) db.subscriptions s hrow
  have hact : subActive userId now (apiCancelMe userId now db) = false := by
    unfold subActive
    rw [hl]
    simp only [decide_eq_false_iff_not]
    omega
  refine ⟨hl, ?_, ?_, ?_⟩
  · show subActive userId now (apiCancelMe userId now db) = false
    exact hact
  · show (if (subActive userId now (apiCancelMe userId now db)) = true
        then ((alookup userId (apiCancelMe userId now db).subscriptions).map
          (fun s => s.untilTs)) else none) = none
    rw [hact]
    simp
  · unfold grantBase
    rw [hl]
    simp only
    rw [if_neg (by omega)]

/-- Witness for C3 at a concrete state. -/
theorem claim_C3_cancel_witness :
    (alookup 1 (({dbEmpty with
        subscriptions := [(1, ⟨"1m", 1700000005000⟩)]} : DB).subscriptions)
      = some ⟨"1m", 1700000005000⟩ ∧ (1700000000000 : Int) ≤ 1700000000000) ∧
    (alookup 1 (apiCancelMe 1 1700000000000
        {dbEmpty with subscriptions := [(1, ⟨"1m", 1700000005000⟩)]}).subscriptions
      = some ⟨"1m", 1699999999000⟩ ∧
     (apiSubMe 1 1700000000000 (apiCancelMe 1 1700000000000
        {dbEmpty with subscriptions := [(1, ⟨"1m", 1700000005000⟩)]})).active = false ∧
     (apiSubMe 1 1700000000000 (apiCancelMe 1 1700000000000
        {dbEmpty with subscriptions := [(1, ⟨"1m", 1700000005000⟩)]})).untilTs = none ∧
     grantBase 1 1700000000000 (apiCancelMe 1 1700000000000
        {dbEmpty with subscriptions := [(1, ⟨"1m", 1700000005000⟩)]}) = 1700000000000) :=
  ⟨⟨by decide, by decide⟩,
    by
      have h := claim_C3_cancel 1 1700000000000 1700000000000
        {dbEmpty with subscriptions := [(1, ⟨"1m", 1700000005000⟩)]}
        ⟨"1m", 1700000005000⟩ (by decide) (by decide)
      simpa using h⟩

/-- C9: the self-cancel endpoint touches only the subscriptions table
(setting the row's expiry one second into the past); the vless_clients
row, the VPN link endpoint and the active-clients sync list are
unchanged, so the credential stays valid until its original expiry.  The
admin cancel endpoint, by contrast, also expires the vless row. -/
theorem claim_C9_cancel_frame (userId now : Int) (db : DB) :
    (apiCancelMe userId now db).vless = db.vless ∧
    (apiCancelMe userId now db).freeTrials = db.freeTrials ∧
    (apiCancelMe userId now db).apaysOrders = db.apaysOrders ∧
    (apiCancelMe userId now db).payments = db.payments ∧
    (apiCancelMe userId now db).servers = db.servers ∧
    (apiCancelMe userId now db).allocations = db.allocations ∧
    (apiCancelMe userId now db).subNotifications = db.subNotifications ∧
    (∀ s, alookup userId db.subscriptions = some s →
      alookup userId (apiCancelMe userId now db).subscriptions
        = some ⟨s.plan, now - 1000⟩) ∧
    (∀ u2, u2 ≠ userId →
      alookup u2 (apiCancelMe userId now db).subscriptions
        = alookup u2 db.subscriptions) ∧
    (∀ t, apiVpnLink userId t (apiCancelMe userId now db) = apiVpnLink userId t db) ∧
    (∀ t, apiVpnClients t (apiCancelMe userId now db) = apiVpnClients t db) ∧
    (∀ v, alookup userId db.vless = some v →
      alookup userId (adminSubCancel userId now db).vless
        = some ⟨v.uuid, now - 1000⟩) := by
  refine ⟨rfl, rfl, rfl, rfl, rfl, rfl, rfl, ?_, ?_, fun t => rfl, fun t => rfl, ?_⟩
  · intro s hrow
    show alookup userId (setUntil userId (now - 1000) db.subscriptions) = _
    unfold setUntil
    exact alookup_map_update_self userId
      (fun x => (⟨x.plan, now - 1000⟩ : Subscription)) db.subscriptions s hrow
  · intro u2 hne
    show alookup u2 (setUntil userId (now - 1000) db.subscriptions) = _
    unfold setUntil
    exact alookup_map_update_other userId u2
      (fun x => (⟨x.plan, now - 1000⟩ : Subscription)) db.subscriptions hne
  · intro v hv
    show alookup userId (setVlessExpiry userId (now - 1000) db.vless) = _
    unfold setVlessExpiry
    exact alookup_map_update_self userId
      (fun x => (⟨x.uuid, now - 1000⟩ : VlessClient)) db.vless v hv

/-- Witness for C9 at a concrete state with a live vless client. -/
theorem claim_C9_cancel_frame_witness :
    (apiCancelMe 1 1700000000000 {dbEmpty with
        subscriptions := [(1, ⟨"1m", 1702000000000⟩)],
        vless := [(1, ⟨77, 1702000000000⟩)]}).vless = [(1, ⟨77, 1702000000000⟩)] ∧
    apiVpnLink 1 1700000000000 (apiCancelMe 1 1700000000000 {dbEmpty with
        subscriptions := [(1, ⟨"1m", 1702000000000⟩)],
        vless := [(1, ⟨77, 1702000000000⟩)]})
      = apiVpnLink 1 1700000000000 {dbEmpty with
        subscriptions := [(1, ⟨"1m", 1702000000000⟩)],
        vless := [(1, ⟨77, 1702000000000⟩)]} ∧
    alookup 1 (adminSubCancel 1 1700000000000 {dbEmpty with
        subscriptions := [(1, ⟨"1m", 1702000000000⟩)],
        vless := [(1, ⟨77, 1702000000000⟩)]}).vless
      = some ⟨77, 1699999999000⟩ := by
  have h := claim_C9_cancel_frame 1 1700000000000 {dbEmpty with
    subscriptions := [(1, ⟨"1m", 1702000000000⟩)],
    vless := [(1, ⟨77, 1702000000000⟩)]}
  exact ⟨h.1, h.2.2.2.2.2.2.2.2.2.1 1700000000000,
    h.2.2.2.2.2.2.2.2.2.2.2 ⟨77, 1702000000000⟩ (by decide)⟩

/-- C10: the free-trial endpoint rejects a user with an existing
free_trials row (already_claimed) or a currently active subscription
(already_active), changing nothing in either case; on success it records
the trial claim and then grants plan 1m; once claimed, every later
request is rejected with already_claimed and is a no-op. -/
theorem claim_C10_trial (userId now : Int) (db : DB) :
    (userId ∈ db.freeTrials → apiClaimTrial userId now db = (.alreadyClaimed, db)) ∧
    (userId ∉ db.freeTrials → subActive userId now db = true →
      apiClaimTrial userId now db = (.alreadyActive, db)) ∧
    (userId ∉ db.freeTrials → subActive userId now db = false →
      apiClaimTrial userId now db
        = (.ok, (grantSubscription userId "1m" now
            { db with freeTrials := db.freeTrials ++ [userId] }).2)) ∧
    (∀ t2, (apiClaimTrial userId now db).1 = .ok →
      apiClaimTrial userId t2 (apiClaimTrial userId now db).2
        = (.alreadyClaimed, (apiClaimTrial userId now db).2)) := by
  have hbranch1 : ∀ h : userId ∈ db.freeTrials,
      apiClaimTrial userId now db = (.alreadyClaimed, db) := by
    intro h
    unfold apiClaimTrial
    rw [if_pos h]
  have hbranch2 : ∀ _ : userId ∉ db.freeTrials, subActive userId now db = true →
      apiClaimTrial userId now db = (.alreadyActive, db) := by
    intro h hact
    unfold apiClaimTrial
    rw [if_neg h]
    show (if (subActive userId now db) = true then ((.alreadyActive, db) : TrialResult × DB)
      else _) = _
    rw [hact]
    simp
  have hbranch3 : ∀ _ : userId ∉ db.freeTrials, subActive userId now db = false →
      apiClaimTrial userId now db
        = (.ok, (grantSubscription userId "1m" now
            { db with freeTrials := db.freeTrials ++ [userId] }).2) := by
    intro h hact
    unfold apiClaimTrial
    rw [if_neg h]
    show (if (subActive userId now db) = true then ((.alreadyActive, db) : TrialResult × DB)
      else _) = _
    rw [hact]
    simp only [Bool.false_eq_true, if_false]
    rw [if_neg h]
  refine ⟨hbranch1, hbranch2, hbranch3, ?_⟩
  intro t2 hok
  by_cases h : userId ∈ db.freeTrials
  · rw [hbranch1 h] at hok
    simp at hok
  by_cases hact : subActive userId now db = true
  · rw [hbranch2 h hact] at hok
    simp at hok
  have h3 := hbranch3 h (by simpa using hact)
  rw [h3] at hok ⊢
  obtain ⟨allocs, hshape⟩ := grantSubscription_state userId "1m" now
    { db with freeTrials := db.freeTrials ++ [userId] }
  have hmem : userId ∈ ((grantSubscription userId "1m" now
      { db with freeTrials := db.freeTrials ++ [userId] }).2).freeTrials := by
    rw [hshape]
    simp
  show apiClaimTrial userId t2 _ = _
  unfold apiClaimTrial
  rw [if_pos hmem]

/-- Witness for C10: user 1 claims the trial from an empty state; a second
claim is rejected with already_claimed. -/
theorem claim_C10_trial_witness :
    ((1 : Int) ∉ dbEmpty.freeTrials ∧ subActive 1 1700000000000 dbEmpty = false ∧
      (apiClaimTrial 1 1700000000000 dbEmpty).1 = .ok) ∧
    apiClaimTrial 1 1700000000000 dbEmpty
      = (.ok, (grantSubscription 1 "1m" 1700000000000
          { dbEmpty with freeTrials := [1] }).2) ∧
    apiClaimTrial 1 1700000100000 (apiClaimTrial 1 1700000000000 dbEmpty).2
      = (.alreadyClaimed, (apiClaimTrial 1 1700000000000 dbEmpty).2) := by
  have h := claim_C10_trial 1 1700000000000 dbEmpty
  refine ⟨⟨by decide, by decide, ?_⟩, ?_, ?_⟩
  · rw [h.2.2.1 (by decide) (by decide)]
  · exact h.2.2.1 (by decide) (by decide)
  · exact h.2.2.2 1700000100000 (by rw [h.2.2.1 (by decide) (by decide)])

/-- C1 counterexample: the Stars confirmation handler /api/pay/confirm has
no order-id gate, so delivering the same payment confirmation twice
extends the ledger twice: the stored expiry after two identical
deliveries differs from the expiry after one. -/
theorem claim_C1_counterexample :
    (alookup 1 ((apiPayConfirm 1 "1m" 1700000000000
        ((apiPayConfirm 1 "1m" 1700000000000 dbEmpty).2)).2).subscriptions).map
          (fun s => s.untilTs)
      ≠ (alookup 1 ((apiPayConfirm 1 "1m" 1700000000000 dbEmpty).2).subscriptions).map
          (fun s => s.untilTs) := by decide

theorem apaysCallback_paid_noop (oid status2 : String) (t : Int) (st : DB)
    (o2 : ApaysOrder) (h1 : alookup oid st.apaysOrders = some o2)
    (h2 : o2.status = "paid") :
    apaysCallback oid status2 t st = (.ok, st) := by
  unfold apaysCallback
  rw [h1]
  simp [h2]

/-- C1 (amended): the APays webhook handler is idempotent per order_id:
the first approved delivery that finds the order not yet paid marks it
paid and extends the ledger, and every later delivery of the same
order_id reports success and leaves the entire state, in particular the
stored expiry, unchanged, so the state after N duplicate deliveries
equals the state after one.  (The Stars /api/pay/confirm handler has no
such gate; see the counterexample.) -/
theorem claim_C1_apays_exactly_once (oid : String) (now : Int) (db : DB) (o : ApaysOrder)
    (horder : alookup oid db.apaysOrders = some o) (ho : ¬ o.status = "paid") :
    (apaysCallback oid "approved" now db).1 = .ok ∧
    alookup oid ((apaysCallback oid "approved" now db).2).apaysOrders
      = some ⟨o.user_id, o.plan, o.amount_rub, "paid"⟩ ∧
    alookup o.user_id ((apaysCallback oid "approved" now db).2).subscriptions
      = some ⟨normalizePlan o.plan, grantUntil o.user_id o.plan now db⟩ ∧
    (∀ t, apaysCallback oid "approved" t ((apaysCallback oid "approved" now db).2)
      = (.ok, (apaysCallback oid "approved" now db).2)) ∧
    (∀ ts : List Int, ts.foldl (fun s t => (apaysCallback oid "approved" t s).2)
        ((apaysCallback oid "approved" now db).2)
      = (apaysCallback oid "approved" now db).2) := by
  have hfirst : apaysCallback oid "approved" now db
      = (.ok, (grantSubscription o.user_id o.plan now
          { db with
            apaysOrders := aupsert oid ⟨o.user_id, o.plan, o.amount_rub, "paid"⟩
              db.apaysOrders,
            payments := db.payments ++ [⟨o.user_id, o.plan, o.amount_rub, 0⟩] }).2) := by
    unfold apaysCallback
    rw [horder]
    simp only [if_neg ho]
    rw [if_pos (show jsToLowerCase "approved" = "approved" from by decide)]
  obtain ⟨allocs, hshape⟩ := grantSubscription_state o.user_id o.plan now
    { db with
      apaysOrders := aupsert oid ⟨o.user_id, o.plan, o.amount_rub, "paid"⟩ db.apaysOrders,
      payments := db.payments ++ [⟨o.user_id, o.plan, o.amount_rub, 0⟩] }
  have hres : (apaysCallback oid "approved" now db).1 = .ok := by rw [hfirst]
  have hpaid : alookup oid ((apaysCallback oid "approved" now db).2).apaysOrders
      = some ⟨o.user_id, o.plan, o.amount_rub, "paid"⟩ := by
    rw [hfirst]
    show alookup oid ((grantSubscription o.user_id o.plan now _).2).apaysOrders = _
    rw [hshape]
    exact alookup_aupsert_self oid _ db.apaysOrders
  have hsub : alookup o.user_id ((apaysCallback oid "approved" now db).2).subscriptions
      = some ⟨normalizePlan o.plan, grantUntil o.user_id o.plan now db⟩ := by
    rw [hfirst]
    show alookup o.user_id ((grantSubscription o.user_id o.plan now _).2).subscriptions = _
    rw [hshape]
    exact alookup_aupsert_self o.user_id _ _
  have hnoop : ∀ t, apaysCallback oid "approved" t ((apaysCallback oid "approved" now db).2)
      = (.ok, (apaysCallback oid "approved" now db).2) :=
    fun t => apaysCallback_paid_noop oid "approved" t _ _ hpaid rfl
  refine ⟨hres, hpaid, hsub, hnoop, ?_⟩
  intro ts
  induction ts with
  | nil => rfl
  | cons t ts ih =>
    rw [List.foldl_cons, hnoop t]
    exact ih

/-- Witness for the amended C1 at a concrete order. -/
theorem claim_C1_apays_exactly_once_witness :
    (alookup "o1" ({ dbEmpty with
        apaysOrders := [("o1", ⟨1, "1m", 99, "new"⟩)] } : DB).apaysOrders
      = some ⟨1, "1m", 99, "new"⟩ ∧ ¬ ("new" = "paid")) ∧
    (apaysCallback "o1" "approved" 1700000000000
      { dbEmpty with apaysOrders := [("o1", ⟨1, "1m", 99, "new"⟩)] }).1 = .ok ∧
    (∀ t, apaysCallback "o1" "approved" t
        ((apaysCallback "o1" "approved" 1700000000000
          { dbEmpty with apaysOrders := [("o1", ⟨1, "1m", 99, "new"⟩)] }).2)
      = (.ok, (apaysCallback "o1" "approved" 1700000000000
          { dbEmpty with apaysOrders := [("o1", ⟨1, "1m", 99, "new"⟩)] }).2)) := by
  have h := claim_C1_apays_exactly_once "o1" 1700000000000
    { dbEmpty with apaysOrders := [("o1", ⟨1, "1m", 99, "new"⟩)] }
    ⟨1, "1m", 99, "new"⟩ (by decide) (by decide)
  exact ⟨⟨by decide, by decide⟩, h.1, h.2.2.2.1⟩

theorem planAdvance_1m (t : Int) : planAdvance "1m" t = jsAddMonths t 1 := by
  unfold planAdvance
  rw [if_neg (by decide), if_pos (by decide)]

/-- C7 counterexample: with no prior entitlement and now = 2025-03-01
00:00 UTC, a confirmed 1m purchase sets the expiry to 2025-04-01, which
is 31 days after now, not the 30 days the claim states. -/
theorem claim_C7_counterexample :
    (grantSubscription 1 "1m" 1740787200000 dbEmpty).1
        ≠ 1740787200000 + 30 * msPerDay ∧
    (grantSubscription 1 "1m" 1740787200000 dbEmpty).1
        = 1740787200000 + 31 * msPerDay := by
  refine ⟨?_, ?_⟩ <;> decide

/-- C7 (amended): the catalog lists plan 1m with duration_days = 30, but
the grant path advances the expiry by one calendar month, between 28 and
31 days: for a user with no unexpired entitlement the first confirmed 1m
purchase sets the expiry to now advanced by one month, and a second
confirmed 1m purchase (a different order, before expiry) advances it by
another calendar month. -/
theorem claim_C7_one_month (userId now : Int) (db : DB) (h0 : 0 ≤ now)
    (hfresh : grantBase userId now db = now) :
    ((CONFIG_TARIFFS.find? (fun t => t.code = "1m")).map (fun t => t.duration_days)
      = some 30) ∧
    (grantSubscription userId "1m" now db).1 = jsAddMonths now 1 ∧
    now + 28 * msPerDay ≤ (grantSubscription userId "1m" now db).1 ∧
    (grantSubscription userId "1m" now db).1 ≤ now + 31 * msPerDay ∧
    (grantSubscription userId "1m" now
        ((grantSubscription userId "1m" now db).2)).1
      = jsAddMonths (jsAddMonths now 1) 1 := by
  have hb := jsAddMonths_bounds now 1 h0
  norm_num at hb
  have hfirstval : (grantSubscription userId "1m" now db).1 = jsAddMonths now 1 := by
    rw [grantSubscription_eq]
    show grantUntil userId "1m" now db = _
    unfold grantUntil addPlanToDate
    rw [hfresh, max_self]
    exact planAdvance_1m now
  refine ⟨by decide, hfirstval, ?_, ?_, ?_⟩
  · rw [hfirstval]; exact hb.1
  · rw [hfirstval]; exact hb.2.1
  · obtain ⟨allocs, hshape⟩ := grantSubscription_state userId "1m" now db
    have hrow : alookup userId ((grantSubscription userId "1m" now db).2).subscriptions
        = some ⟨"1m", jsAddMonths now 1⟩ := by
      rw [hshape]
      show alookup userId (aupsert userId
        ⟨normalizePlan "1m", grantUntil userId "1m" now db⟩ db.subscriptions) = _
      have : grantUntil userId "1m" now db = jsAddMonths now 1 := hfirstval
      rw [show (⟨normalizePlan "1m", grantUntil userId "1m" now db⟩ : Subscription)
          = ⟨"1m", jsAddMonths now 1⟩ from by rw [this]; rfl]
      exact alookup_aupsert_self userId _ db.subscriptions
    rw [grantSubscription_eq]
    show grantUntil userId "1m" now ((grantSubscription userId "1m" now db).2) = _
    unfold grantUntil addPlanToDate grantBase
    rw [hrow]
    simp only
    rw [if_pos (show jsAddMonths now 1 > now from by unfold msPerDay at hb; omega)]
    rw [max_eq_left (show now ≤ jsAddMonths now 1 from by unfold msPerDay at hb; omega)]
    exact planAdvance_1m _

/-- Witness for the amended C7 at a concrete time with no entitlement. -/
theorem claim_C7_one_month_witness :
    ((0 : Int) ≤ 1700000000000 ∧ grantBase 1 1700000000000 dbEmpty = 1700000000000) ∧
    (grantSubscription 1 "1m" 1700000000000 dbEmpty).1
      = jsAddMonths 1700000000000 1 ∧
    (grantSubscription 1 "1m" 1700000000000
        ((grantSubscription 1 "1m" 1700000000000 dbEmpty).2)).1
      = jsAddMonths (jsAddMonths 1700000000000 1) 1 := by
  have h := claim_C7_one_month 1 1700000000000 dbEmpty (by decide) (by decide)
  exact ⟨⟨by decide, by decide⟩, h.2.1, h.2.2.2.2⟩

/-!
### Characterization of the server selection routine
-/

/-- Modelled from the spec (amended rule): a server is selectable while
its occupancy is below its capacity; a NULL capacity, and also a zero
capacity, is treated as unlimited. -/
def specEligible (allocs : List (Int × Int)) (s : Server) : Bool :=
  match s.slotLimit with
  | none => true
  | some c => if c = 0 then true else decide (occupancy allocs s.sid < c)

/-- Modelled from the spec, claim-exact rule: only a NULL capacity is
unlimited; any configured capacity excludes the server once occupancy has
reached it. -/
def claimEligible (allocs : List (Int × Int)) (s : Server) : Bool :=
  match s.slotLimit with
  | none => true
  | some c => decide (occupancy allocs s.sid < c)

/-- Modelled from the spec: among the given servers, in insertion order,
the first one achieving the lowest occupancy. -/
def firstLowest (allocs : List (Int × Int)) : List Server → Option Server
  | [] => none
  | s :: rest =>
    match firstLowest allocs rest with
    | none => some s
    | some b => if occupancy allocs b.sid < occupancy allocs s.sid then some b else some s

/-- Modelled from the spec (amended): the first lowest-occupancy server
among the active servers still below capacity. -/
def pickRuleSpec (servers : List Server) (allocs : List (Int × Int)) : Option Int :=
  (firstLowest allocs
    ((servers.filter (fun s => s.active)).filter (specEligible allocs))).map
      (fun s => s.sid)

/-- Modelled from the spec, claim-exact variant. -/
def pickRuleClaim (servers : List Server) (allocs : List (Int × Int)) : Option Int :=
  (firstLowest allocs
    ((servers.filter (fun s => s.active)).filter (claimEligible allocs))).map
      (fun s => s.sid)

theorem specEligible_iff (allocs : List (Int × Int)) (s : Server) :
    specEligible allocs s = true
      ↔ ¬(s.slotLimit.getD 0 ≠ 0 ∧ occupancy allocs s.sid ≥ s.slotLimit.getD 0) := by
  cases h : s.slotLimit with
  | none => simp [specEligible, h]
  | some c =>
    simp only [specEligible, h, Option.getD_some]
    by_cases hc : c = 0
    · simp [hc]
    · simp only [if_neg hc, decide_eq_true_eq]
      omega

def pickCombine (allocs : List (Int × Int)) (r : Option Server)
    (acc : Option (Int × Int)) : Option Int :=
  match r, acc with
  | none, none => none
  | none, some b => some b.1
  | some r, none => some r.sid
  | some r, some b => if occupancy allocs r.sid < b.2 then some r.sid else some b.1

theorem pickGo_eq (allocs : List (Int × Int)) : ∀ (l : List Server)
    (acc : Option (Int × Int)),
    pickGo allocs l acc
      = pickCombine allocs (firstLowest allocs (l.filter (specEligible allocs))) acc := by
  intro l
  induction l with
  | nil =>
    intro acc
    cases acc with
    | none => rfl
    | some b => rfl
  | cons s rest ih =>
    intro acc
    by_cases he : specEligible allocs s = true
    · have hcond : ¬(s.slotLimit.getD 0 ≠ 0 ∧ occupancy allocs s.sid ≥ s.slotLimit.getD 0) :=
        (specEligible_iff allocs s).mp he
      rw [List.filter_cons_of_pos (by simpa using he)]
      show (if s.slotLimit.getD 0 ≠ 0 ∧ occupancy allocs s.sid ≥ s.slotLimit.getD 0
          then pickGo allocs rest acc
          else match acc with
            | none => pickGo allocs rest (some (s.sid, occupancy allocs s.sid))
            | some b => if occupancy allocs s.sid < b.2
                then pickGo allocs rest (some (s.sid, occupancy allocs s.sid))
                else pickGo allocs rest (some b))
        = _
      rw [if_neg hcond]
      cases acc with
      | none =>
        show pickGo allocs rest (some (s.sid, occupancy allocs s.sid))
          = pickCombine allocs
              (firstLowest allocs (s :: rest.filter (specEligible allocs))) none
        rw [ih]
        cases hR : firstLowest allocs (rest.filter (specEligible allocs)) with
        | none => simp [pickCombine, firstLowest, hR]
        | some r =>
          simp only [pickCombine, firstLowest, hR]
          split_ifs <;> (try rfl) <;> simp only [pickCombine] <;>
            split_ifs <;> first | rfl | omega
      | some b =>
        show (if occupancy allocs s.sid < b.2
            then pickGo allocs rest (some (s.sid, occupancy allocs s.sid))
            else pickGo allocs rest (some b))
          = pickCombine allocs
              (firstLowest allocs (s :: rest.filter (specEligible allocs))) (some b)
        by_cases hsb : occupancy allocs s.sid < b.2
        · rw [if_pos hsb, ih]
          cases hR : firstLowest allocs (rest.filter (specEligible allocs)) with
          | none =>
            simp only [pickCombine, firstLowest, hR]
            split_ifs <;> (try rfl) <;> simp only [pickCombine] <;>
              split_ifs <;> first | rfl | omega
          | some r =>
            simp only [pickCombine, firstLowest, hR]
            split_ifs <;> (try rfl) <;> simp only [pickCombine] <;>
              split_ifs <;> first | rfl | omega
        · rw [if_neg hsb, ih]
          cases hR : firstLowest allocs (rest.filter (specEligible allocs)) with
          | none =>
            simp only [pickCombine, firstLowest, hR]
            split_ifs <;> (try rfl) <;> simp only [pickCombine] <;>
              split_ifs <;> first | rfl | omega
          | some r =>
            simp only [pickCombine, firstLowest, hR]
            split_ifs <;> (try rfl) <;> simp only [pickCombine] <;>
              split_ifs <;> first | rfl | omega
    · have hcond : s.slotLimit.getD 0 ≠ 0 ∧ occupancy allocs s.sid ≥ s.slotLimit.getD 0 := by
        by_contra hcon
        exact he ((specEligible_iff allocs s).mpr hcon)
      rw [List.filter_cons_of_neg (by simpa using he)]
      show (if s.slotLimit.getD 0 ≠ 0 ∧ occupancy allocs s.sid ≥ s.slotLimit.getD 0
          then pickGo allocs rest acc
          else match acc with
            | none => pickGo allocs rest (some (s.sid, occupancy allocs s.sid))
            | some b => if occupancy allocs s.sid < b.2
                then pickGo allocs rest (some (s.sid, occupancy allocs s.sid))
                else pickGo allocs rest (some b))
        = _
      rw [if_pos hcond]
      exact ih acc

/-- pickServerForUser implements the (amended) selection rule. -/
theorem pickServerForUser_eq (servers : List Server) (allocs : List (Int × Int)) :
    pickServerForUser servers allocs = pickRuleSpec servers allocs := by
  unfold pickServerForUser pickRuleSpec
  rw [pickGo_eq]
  cases firstLowest allocs ((servers.filter (fun s => s.active)).filter (specEligible allocs)) with
  | none => rfl
  | some r => rfl

theorem firstLowest_ne_none (allocs : List (Int × Int)) (a : Server)
    (l : List Server) : firstLowest allocs (a :: l) ≠ none := by
  simp only [firstLowest]
  cases hR : firstLowest allocs l with
  | none => simp
  | some b =>
    show (if occupancy allocs b.sid < occupancy allocs a.sid
      then some b else some a) ≠ none
    split_ifs <;> simp

theorem firstLowest_mem (allocs : List (Int × Int)) : ∀ (l : List Server) (s : Server),
    firstLowest allocs l = some s → s ∈ l := by
  intro l
  induction l with
  | nil => intro s h; simp [firstLowest] at h
  | cons a rest ih =>
    intro s h
    simp only [firstLowest] at h
    cases hR : firstLowest allocs rest with
    | none =>
      simp only [hR] at h
      cases h
      exact List.mem_cons_self a rest
    | some b =>
      simp only [hR] at h
      by_cases hlt : occupancy allocs b.sid < occupancy allocs a.sid
      · rw [if_pos hlt] at h
        cases h
        exact List.mem_cons_of_mem a (ih s hR)
      · rw [if_neg hlt] at h
        cases h
        exact List.mem_cons_self a rest

theorem firstLowest_min (allocs : List (Int × Int)) : ∀ (l : List Server) (s : Server),
    firstLowest allocs l = some s →
    ∀ x ∈ l, occupancy allocs s.sid ≤ occupancy allocs x.sid := by
  intro l
  induction l with
  | nil => intro s h; simp [firstLowest] at h
  | cons a rest ih =>
    intro s h x hx
    simp only [firstLowest] at h
    cases hR : firstLowest allocs rest with
    | none =>
      simp only [hR] at h
      cases h
      rcases List.mem_cons.mp hx with hx | hx
      · rw [hx]
      · exfalso
        cases rest with
        | nil => simp at hx
        | cons c rest2 => exact firstLowest_ne_none allocs c rest2 hR
    | some b =>
      simp only [hR] at h
      rcases List.mem_cons.mp hx with hx | hx
      · subst hx
        by_cases hlt : occupancy allocs b.sid < occupancy allocs x.sid
        · rw [if_pos hlt] at h
          cases h
          omega
        · rw [if_neg hlt] at h
          cases h
          omega
      · have hb := ih b hR x hx
        by_cases hlt : occupancy allocs b.sid < occupancy allocs a.sid
        · rw [if_pos hlt] at h
          cases h
          exact hb
        · rw [if_neg hlt] at h
          cases h
          omega

theorem occupancy_cons (e : Int × Int) (l : List (Int × Int)) (sid : Int) :
    occupancy (e :: l) sid
      = (if e.2 = sid then 1 else 0) + occupancy l sid := by
  unfold occupancy
  rw [List.filter_cons]
  by_cases h : e.2 = sid
  · rw [if_pos h, if_pos (by simpa using h)]
    simp
    omega
  · rw [if_neg h, if_neg (by simpa using h)]
    simp

theorem occupancy_aupsert_le (u v : Int) (l : List (Int × Int)) (sid : Int) :
    occupancy (aupsert u v l) sid ≤ occupancy l sid + 1 := by
  induction l with
  | nil =>
    show occupancy [(u, v)] sid ≤ occupancy [] sid + 1
    rw [occupancy_cons]
    unfold occupancy
    simp only [List.filter_nil, List.length_nil]
    split_ifs <;> omega
  | cons e rest ih =>
    rw [aupsert_cons]
    by_cases h : e.1 = u
    · rw [if_pos h, occupancy_cons, occupancy_cons]
      split_ifs <;> omega
    · rw [if_neg h, occupancy_cons, occupancy_cons]
      split_ifs <;> omega

theorem occupancy_nonneg (l : List (Int × Int)) (sid : Int) :
    0 ≤ occupancy l sid := by
  unfold occupancy
  positivity

theorem findServer_unique (servers : List Server) (s : Server)
    (hnd : (servers.map Server.sid).Nodup) (hmem : s ∈ servers) :
    findServer servers s.sid = some s := by
  induction servers with
  | nil => simp at hmem
  | cons t rest ih =>
    rw [List.map_cons, List.nodup_cons] at hnd
    unfold findServer
    rcases List.mem_cons.mp hmem with h | h
    · subst h
      rw [List.find?_cons_of_pos _ (by simp)]
    · have hne : ¬ (t.sid = s.sid) := by
        intro hc
        exact hnd.1 (hc ▸ List.mem_map_of_mem Server.sid h)
      rw [List.find?_cons_of_neg _ (by simpa using hne)]
      exact ih hnd.2 h

theorem pickServerForUser_post (servers : List Server) (allocs : List (Int × Int))
    (sid : Int) (h : pickServerForUser servers allocs = some sid) :
    ∃ s ∈ servers, s.active = true ∧ specEligible allocs s = true ∧ s.sid = sid := by
  rw [pickServerForUser_eq] at h
  unfold pickRuleSpec at h
  cases hF : firstLowest allocs
      ((servers.filter (fun s => s.active)).filter (specEligible allocs)) with
  | none =>
    rw [hF] at h
    exact Option.noConfusion h
  | some r =>
    rw [hF] at h
    cases h
    have hmem := firstLowest_mem allocs _ r hF
    rw [List.mem_filter] at hmem
    obtain ⟨hmem2, helig⟩ := hmem
    rw [List.mem_filter] at hmem2
    exact ⟨r, hmem2.1, by simpa using hmem2.2, helig, rfl⟩

theorem ensureUserServer_keep (u : Int) (db : DB) (sid : Int) (srv : Server)
    (h1 : alookup u db.allocations = some sid)
    (h2 : findServer db.servers sid = some srv)
    (h3 : srv.active = true)
    (h4 : srv.slotLimit.getD 0 = 0 ∨ occupancy db.allocations sid ≤ srv.slotLimit.getD 0) :
    ensureUserServer u db = (some sid, db) := by
  unfold ensureUserServer
  simp only [h1, h2]
  rw [if_pos ⟨h3, h4⟩]

theorem ensureUserServer_nolookup (u : Int) (db : DB)
    (h1 : alookup u db.allocations = none) :
    ensureUserServer u db = ensureReassign u db := by
  unfold ensureUserServer
  simp only [h1]

theorem ensureUserServer_noserver (u : Int) (db : DB) (sid : Int)
    (h1 : alookup u db.allocations = some sid)
    (h2 : findServer db.servers sid = none) :
    ensureUserServer u db = ensureReassign u db := by
  unfold ensureUserServer
  simp only [h1, h2]

theorem ensureUserServer_overcap (u : Int) (db : DB) (sid : Int) (srv : Server)
    (h1 : alookup u db.allocations = some sid)
    (h2 : findServer db.servers sid = some srv)
    (h3 : ¬(srv.active = true ∧ (srv.slotLimit.getD 0 = 0
      ∨ occupancy db.allocations sid ≤ srv.slotLimit.getD 0))) :
    ensureUserServer u db = ensureReassign u db := by
  unfold ensureUserServer
  simp only [h1, h2]
  rw [if_neg h3]

theorem ensureReassign_none (u : Int) (db : DB)
    (h : pickServerForUser db.servers db.allocations = none) :
    ensureReassign u db = (none, db) := by
  unfold ensureReassign
  rw [h]

theorem ensureReassign_some (u : Int) (db : DB) (next : Int)
    (h : pickServerForUser db.servers db.allocations = some next) :
    ensureReassign u db
      = (some next, { db with allocations := aupsert u next db.allocations }) := by
  unfold ensureReassign
  rw [h]

/-- C4 counterexample: a server configured with slot_limit 0 has reached
its capacity at occupancy 0, so the claimed rule excludes it and returns
null, but pickServerForUser treats a zero limit as unlimited and returns
the server. -/
theorem claim_C4_counterexample :
    pickServerForUser [⟨1, true, some 0⟩] [] = some 1 ∧
    pickRuleClaim [⟨1, true, some 0⟩] [] = none := by
  constructor <;> decide

/-- C4 (amended): pickServerForUser considers exactly the active servers,
computes occupancy as the count of allocations referencing each server,
excludes a server whose occupancy has reached its capacity — where a
NULL and also a zero slot_limit mean unlimited — and returns the first
server (in created_at order) achieving the lowest occupancy, or null
when no server qualifies; with two empty active servers of capacities 1
and unlimited, the first user gets the older capacity-1 server and the
second user the unlimited one. -/
theorem claim_C4_selection (servers : List Server) (allocs : List (Int × Int)) :
    pickServerForUser servers allocs = pickRuleSpec servers allocs ∧
    (∀ sid, pickServerForUser servers allocs = some sid →
      ∃ s ∈ servers, s.sid = sid ∧ s.active = true ∧ specEligible allocs s = true ∧
        ∀ s2 ∈ servers, s2.active = true → specEligible allocs s2 = true →
          occupancy allocs s.sid ≤ occupancy allocs s2.sid) ∧
    (pickServerForUser servers allocs = none →
      ∀ s ∈ servers, s.active = true → specEligible allocs s = false) ∧
    ((ensureUserServer 100 { dbEmpty with
        servers := [⟨1, true, some 1⟩, ⟨2, true, none⟩] }).1 = some 1 ∧
     (ensureUserServer 200 ((ensureUserServer 100 { dbEmpty with
        servers := [⟨1, true, some 1⟩, ⟨2, true, none⟩] }).2)).1 = some 2) := by
  refine ⟨pickServerForUser_eq servers allocs, ?_, ?_, by constructor <;> decide⟩
  · intro sid h
    obtain ⟨s, hmem, hact, helig, hsid⟩ := pickServerForUser_post servers allocs sid h
    refine ⟨s, hmem, hsid, hact, helig, ?_⟩
    intro s2 hmem2 hact2 helig2
    rw [pickServerForUser_eq] at h
    unfold pickRuleSpec at h
    cases hF : firstLowest allocs
        ((servers.filter (fun s => s.active)).filter (specEligible allocs)) with
    | none => rw [hF] at h; exact Option.noConfusion h
    | some r =>
      rw [hF] at h
      cases h
      have hr2 : s2 ∈ (servers.filter (fun s => s.active)).filter (specEligible allocs) := by
        rw [List.mem_filter]
        exact ⟨List.mem_filter.mpr ⟨hmem2, by simpa using hact2⟩, helig2⟩
      have hmin := firstLowest_min allocs _ r hF s2 hr2
      -- the returned sid is r.sid and s.sid = sid
      have : s.sid = r.sid := hsid
      rw [this]
      exact hmin
  · intro h s hmem hact
    by_contra hne
    have helig : specEligible allocs s = true := by
      cases hel : specEligible allocs s
      · exact absurd hel hne
      · rfl
    have hmemf : s ∈ (servers.filter (fun s => s.active)).filter (specEligible allocs) := by
      rw [List.mem_filter]
      exact ⟨List.mem_filter.mpr ⟨hmem, by simpa using hact⟩, helig⟩
    rw [pickServerForUser_eq] at h
    unfold pickRuleSpec at h
    cases hF : firstLowest allocs
        ((servers.filter (fun s => s.active)).filter (specEligible allocs)) with
    | some r => rw [hF] at h; exact Option.noConfusion h
    | none =>
      cases hl : (servers.filter (fun s => s.active)).filter (specEligible allocs) with
      | nil => rw [hl] at hmemf; simp at hmemf
      | cons a rest =>
        rw [hl] at hF
        exact firstLowest_ne_none allocs a rest hF

/-- Witness for the amended C4 on a concrete pool. -/
theorem claim_C4_selection_witness :
    pickServerForUser [⟨1, true, some 1⟩, ⟨2, true, none⟩] [(5, 1)]
      = pickRuleSpec [⟨1, true, some 1⟩, ⟨2, true, none⟩] [(5, 1)] ∧
    (pickServerForUser [⟨1, true, some 1⟩, ⟨2, true, none⟩] [(5, 1)] = some 2 ∧
     ∃ s ∈ [(⟨1, true, some 1⟩ : Server), ⟨2, true, none⟩], s.sid = 2 ∧
       s.active = true ∧ specEligible [(5, 1)] s = true ∧
       ∀ s2 ∈ [(⟨1, true, some 1⟩ : Server), ⟨2, true, none⟩], s2.active = true →
         specEligible [(5, 1)] s2 = true →
           occupancy [(5, 1)] s.sid ≤ occupancy [(5, 1)] s2.sid) := by
  have h := claim_C4_selection [⟨1, true, some 1⟩, ⟨2, true, none⟩] [(5, 1)]
  exact ⟨h.1, by decide, h.2.1 2 (by decide)⟩

/-- C5 counterexample: with one active server of configured capacity 0,
ensureAssigned assigns the user to it and its occupancy becomes 1,
exceeding the configured capacity. -/
theorem claim_C5_counterexample :
    (ensureUserServer 1 { dbEmpty with servers := [⟨1, true, some 0⟩] }).1 = some 1 ∧
    occupancy ((ensureUserServer 1 { dbEmpty with
      servers := [⟨1, true, some 0⟩] }).2).allocations 1 = 1 := by
  constructor <;> decide

/-- C5 (amended): for a server whose configured slot_limit is positive,
ensureUserServer never leaves its occupancy above the limit (a NULL or
zero slot_limit means unlimited and is exempt); with two servers of
capacity 2 and five distinct users assigned in order, the first four get
servers and the fifth gets null. -/
theorem claim_C5_capacity (u : Int) (db : DB) (sid : Int) (srv : Server)
    (hnd : (db.servers.map Server.sid).Nodup)
    (hres : (ensureUserServer u db).1 = some sid)
    (hfind : findServer db.servers sid = some srv)
    (hL : 0 < srv.slotLimit.getD 0) :
    occupancy ((ensureUserServer u db).2).allocations sid ≤ srv.slotLimit.getD 0 ∧
    ((ensureUserServer 1 { dbEmpty with
        servers := [⟨1, true, some 2⟩, ⟨2, true, some 2⟩] }).1 = some 1 ∧
     (ensureUserServer 2 ((ensureUserServer 1 { dbEmpty with
        servers := [⟨1, true, some 2⟩, ⟨2, true, some 2⟩] }).2)).1 = some 2 ∧
     (ensureUserServer 3 ((ensureUserServer 2 ((ensureUserServer 1 { dbEmpty with
        servers := [⟨1, true, some 2⟩, ⟨2, true, some 2⟩] }).2)).2)).1 = some 1 ∧
     (ensureUserServer 4 ((ensureUserServer 3 ((ensureUserServer 2 ((ensureUserServer 1
        { dbEmpty with
          servers := [⟨1, true, some 2⟩, ⟨2, true, some 2⟩] }).2)).2)).2)).1 = some 2 ∧
     (ensureUserServer 5 ((ensureUserServer 4 ((ensureUserServer 3 ((ensureUserServer 2
        ((ensureUserServer 1 { dbEmpty with
          servers := [⟨1, true, some 2⟩, ⟨2, true, some 2⟩] }).2)).2)).2)).2)).1
       = none) := by
  have hmain : occupancy ((ensureUserServer u db).2).allocations sid
      ≤ srv.slotLimit.getD 0 := by
    have hreassign : ensureUserServer u db = ensureReassign u db →
        occupancy ((ensureUserServer u db).2).allocations sid ≤ srv.slotLimit.getD 0 := by
      intro heq
      rw [heq] at hres ⊢
      cases hp : pickServerForUser db.servers db.allocations with
      | none =>
        rw [ensureReassign_none u db hp] at hres
        exact Option.noConfusion hres
      | some next =>
        rw [ensureReassign_some u db next hp] at hres ⊢
        simp only at hres ⊢
        cases hres
        obtain ⟨s, hmem, hact, helig, hsid⟩ := pickServerForUser_post _ _ _ hp
        have hfs : findServer db.servers sid = some s := by
          rw [← hsid]
          exact findServer_unique db.servers s hnd hmem
        rw [hfs] at hfind
        cases hfind
        rw [specEligible_iff] at helig
        have hocc : occupancy db.allocations sid < srv.slotLimit.getD 0 := by
          rw [hsid] at helig
          omega
        have hb := occupancy_aupsert_le u sid db.allocations sid
        omega
    cases hlok : alookup u db.allocations with
    | none => exact hreassign (ensureUserServer_nolookup u db hlok)
    | some cur =>
      cases hfs : findServer db.servers cur with
      | none => exact hreassign (ensureUserServer_noserver u db cur hlok hfs)
      | some srv2 =>
        by_cases hcond : srv2.active = true ∧ (srv2.slotLimit.getD 0 = 0
            ∨ occupancy db.allocations cur ≤ srv2.slotLimit.getD 0)
        · have hk := ensureUserServer_keep u db cur srv2 hlok hfs hcond.1 hcond.2
          rw [hk] at hres ⊢
          simp only at hres ⊢
          cases hres
          rw [hfs] at hfind
          cases hfind
          rcases hcond.2 with h0 | h0
          · omega
          · exact h0
        · exact hreassign (ensureUserServer_overcap u db cur srv2 hlok hfs hcond)
  exact ⟨hmain, by decide, by decide, by decide, by decide, by decide⟩

/-- Witness for the amended C5: one fresh user on an empty two-server
pool. -/
theorem claim_C5_capacity_witness :
    ((({ dbEmpty with servers := [⟨1, true, some 2⟩, ⟨2, true, some 2⟩] } :
        DB).servers.map Server.sid).Nodup ∧
      (ensureUserServer 9 { dbEmpty with
        servers := [⟨1, true, some 2⟩, ⟨2, true, some 2⟩] }).1 = some 1 ∧
      findServer ({ dbEmpty with
        servers := [⟨1, true, some 2⟩, ⟨2, true, some 2⟩] } : DB).servers 1
        = some ⟨1, true, some 2⟩ ∧
      (0 : Int) < (some 2 : Option Int).getD 0) ∧
    occupancy ((ensureUserServer 9 { dbEmpty with
        servers := [⟨1, true, some 2⟩, ⟨2, true, some 2⟩] }).2).allocations 1
      ≤ ((⟨1, true, some 2⟩ : Server)).slotLimit.getD 0 := by
  refine ⟨⟨by decide, by decide, by decide, by decide⟩, ?_⟩
  exact (claim_C5_capacity 9 { dbEmpty with
    servers := [⟨1, true, some 2⟩, ⟨2, true, some 2⟩] } 1 ⟨1, true, some 2⟩
    (by decide) (by decide) (by decide) (by decide)).1

/-- C8: if the user already holds an allocation to a server that is
currently active and within its capacity, ensureUserServer returns that
server and leaves the state unchanged; consequently a second call with
no intervening change returns exactly what the first call returned and
changes nothing further. -/
theorem claim_C8_stability (u : Int) (db : DB)
    (hnd : (db.servers.map Server.sid).Nodup) :
    (∀ sid srv, alookup u db.allocations = some sid →
      findServer db.servers sid = some srv → srv.active = true →
      (srv.slotLimit.getD 0 = 0 ∨ occupancy db.allocations sid ≤ srv.slotLimit.getD 0) →
      ensureUserServer u db = (some sid, db)) ∧
    ensureUserServer u (ensureUserServer u db).2 = ensureUserServer u db := by
  refine ⟨fun sid srv h1 h2 h3 h4 => ensureUserServer_keep u db sid srv h1 h2 h3 h4, ?_⟩
  have hreassign : ensureUserServer u db = ensureReassign u db →
      ensureUserServer u (ensureUserServer u db).2 = ensureUserServer u db := by
    intro heq
    cases hp : pickServerForUser db.servers db.allocations with
    | none =>
      rw [heq, ensureReassign_none u db hp]
      rw [heq, ensureReassign_none u db hp]
    | some next =>
      have hsome := ensureReassign_some u db next hp
      rw [heq, hsome]
      obtain ⟨s, hmem, hact, helig, hsid⟩ := pickServerForUser_post _ _ _ hp
      have hlook2 : alookup u (aupsert u next db.allocations) = some next :=
        alookup_aupsert_self u next db.allocations
      have hfs : findServer db.servers next = some s := by
        rw [← hsid]
        exact findServer_unique db.servers s hnd hmem
      have hcap : s.slotLimit.getD 0 = 0
          ∨ occupancy (aupsert u next db.allocations) next ≤ s.slotLimit.getD 0 := by
        rw [specEligible_iff] at helig
        by_cases h0 : s.slotLimit.getD 0 = 0
        · exact Or.inl h0
        · right
          have hb := occupancy_aupsert_le u next db.allocations next
          rw [hsid] at helig
          omega
      exact ensureUserServer_keep u
        { db with allocations := aupsert u next db.allocations } next s hlook2 hfs hact hcap
  cases hlok : alookup u db.allocations with
  | none => exact hreassign (ensureUserServer_nolookup u db hlok)
  | some cur =>
    cases hfs : findServer db.servers cur with
    | none => exact hreassign (ensureUserServer_noserver u db cur hlok hfs)
    | some srv2 =>
      by_cases hcond : srv2.active = true ∧ (srv2.slotLimit.getD 0 = 0
          ∨ occupancy db.allocations cur ≤ srv2.slotLimit.getD 0)
      · have hk := ensureUserServer_keep u db cur srv2 hlok hfs hcond.1 hcond.2
        rw [hk]
        exact hk
      · exact hreassign (ensureUserServer_overcap u db cur srv2 hlok hfs hcond)

def db8 : DB :=
  { dbEmpty with servers := [⟨1, true, some 2⟩], allocations := [(7, 1)] }

/-- Witness for C8: a user already allocated to an active server with a
free slot keeps it, and a repeated call is a no-op. -/
theorem claim_C8_stability_witness :
    ((db8.servers.map Server.sid).Nodup ∧
      alookup 7 db8.allocations = some 1 ∧
      findServer db8.servers 1 = some ⟨1, true, some 2⟩) ∧
    ensureUserServer 7 db8 = (some 1, db8) ∧
    ensureUserServer 7 (ensureUserServer 7 db8).2 = ensureUserServer 7 db8 := by
  have h := claim_C8_stability 7 db8 (by decide)
  exact ⟨⟨by decide, by decide, by decide⟩,
    h.1 1 ⟨1, true, some 2⟩ (by decide) (by decide) (by decide) (by decide), h.2⟩

/-!
### Stacking of extensions (claim C2)
-/

def grantMany (userId now : Int) (plans : List String) (db : DB) : DB :=
  plans.foldl (fun s p => (grantSubscription userId p now s).2) db

/-- Nominal duration in days of each raw plan code, per the tariff
catalog. -/
def nominalDays (p : String) : Int :=
  if p = "7d" then 7 else if p = "1m" then 30 else if p = "3m" then 90
  else if p = "6m" then 180 else if p = "12m" then 365 else 30

/-- Clock tolerance in days: how far one calendar advance can deviate
from the nominal duration. -/
def toleranceDays (p : String) : Int :=
  if p = "7d" then 0 else if p = "1m" then 2 else if p = "3m" then 6
  else if p = "6m" then 12 else if p = "12m" then 29 else 2

theorem grantMany_aux (userId now : Int) (h0 : 0 ≤ now) :
    ∀ (plans : List String) (db : DB) (S : Int), 0 ≤ S →
    grantBase userId now db = now + S * msPerDay →
    ∃ T : Int,
      grantBase userId now (grantMany userId now plans db) = now + T * msPerDay ∧
      S + (plans.map (fun p => planLoDays (normalizePlan p))).sum ≤ T ∧
      T ≤ S + (plans.map (fun p => planHiDays (normalizePlan p))).sum ∧
      (plans ≠ [] →
        (alookup userId (grantMany userId now plans db).subscriptions).map
          (fun s => s.untilTs) = some (now + T * msPerDay) ∧ 0 < T) := by
  intro plans
  induction plans with
  | nil =>
    intro db S hS hbase
    exact ⟨S, hbase, by simp, by simp, fun h => absurd rfl h⟩
  | cons p rest ih =>
    intro db S hS hbase
    have hbm : 0 ≤ now + S * msPerDay := by
      unfold msPerDay
      nlinarith
    obtain ⟨s, hv, hlo, hhi, h7⟩ := planAdvance_exists (normalizePlan p)
      (now + S * msPerDay) hbm
    have huntil : grantUntil userId p now db = now + (S + s) * msPerDay := by
      unfold grantUntil addPlanToDate
      rw [hbase, max_eq_left (by unfold msPerDay; nlinarith), hv]
      ring
    obtain ⟨allocs, hshape⟩ := grantSubscription_state userId p now db
    have hlook : alookup userId
        ((grantSubscription userId p now db).2).subscriptions
        = some ⟨normalizePlan p, now + (S + s) * msPerDay⟩ := by
      rw [hshape]
      rw [show (⟨normalizePlan p, grantUntil userId p now db⟩ : Subscription)
        = ⟨normalizePlan p, now + (S + s) * msPerDay⟩ from by rw [huntil]]
      exact alookup_aupsert_self userId _ db.subscriptions
    have hbase2 : grantBase userId now ((grantSubscription userId p now db).2)
        = now + (S + s) * msPerDay := by
      unfold grantBase
      rw [hlook]
      simp only
      rw [if_pos (by unfold msPerDay; nlinarith)]
    obtain ⟨T, hbT, hloT, hhiT, hlast⟩ := ih ((grantSubscription userId p now db).2)
      (S + s) (by omega) hbase2
    refine ⟨T, ?_, ?_, ?_, ?_⟩
    · show grantBase userId now
        (grantMany userId now rest ((grantSubscription userId p now db).2))
          = now + T * msPerDay
      exact hbT
    · simp only [List.map_cons, List.sum_cons]
      omega
    · simp only [List.map_cons, List.sum_cons]
      omega
    · intro hne
      cases hrest : rest with
      | nil =>
        subst hrest
        have hT : T = S + s := by
          simp at hloT hhiT
          omega
        refine ⟨?_, by omega⟩
        show (alookup userId
          ((grantSubscription userId p now db).2).subscriptions).map
            (fun s => s.untilTs) = some (now + T * msPerDay)
        rw [hlook, hT]
        rfl
      | cons q rest2 =>
        have := hlast (by rw [hrest]; simp)
        rw [hrest] at this
        exact this

theorem plan_day_bounds (p : String)
    (h : p = "7d" ∨ p = "1m" ∨ p = "3m" ∨ p = "6m" ∨ p = "12m") :
    nominalDays p - toleranceDays p ≤ planLoDays (normalizePlan p) ∧
    planHiDays (normalizePlan p) ≤ nominalDays p + toleranceDays p := by
  rcases h with h | h | h | h | h <;> subst h <;> exact ⟨by decide, by decide⟩

theorem planSum_bounds :
    ∀ (l : List String),
    (∀ p ∈ l, p = "7d" ∨ p = "1m" ∨ p = "3m" ∨ p = "6m" ∨ p = "12m") →
    (l.map nominalDays).sum - (l.map toleranceDays).sum
      ≤ (l.map (fun p => planLoDays (normalizePlan p))).sum ∧
    (l.map (fun p => planHiDays (normalizePlan p))).sum
      ≤ (l.map nominalDays).sum + (l.map toleranceDays).sum := by
  intro l
  induction l with
  | nil => intro _; simp
  | cons p rest ih =>
    intro h
    have hp := plan_day_bounds p (h p (by simp))
    have ht := ih (fun q hq => h q (by simp [hq]))
    simp only [List.map_cons, List.sum_cons]
    omega

/-- C2: grantSubscription computes the new expiry as the plan advance
applied to the maximum of the stored expiry (when still in the future)
and now, stores it, and returns it; and stacking purchases without
letting the subscription lapse accumulates: after a non-empty sequence
of catalog purchases by a user with no unexpired subscription, all
confirmed at the same instant, the stored expiry exceeds now by the sum
of the nominal tariff durations up to the per-plan calendar tolerance
(exact for 7d, at most 2 days for 1m, 6 for 3m, 12 for 6m, 29 for 12m),
with no gap double-counted and no overlap lost. -/
theorem claim_C2_extend (userId now : Int) (db : DB) (plan : String)
    (plans : List String)
    (h0 : 0 ≤ now)
    (hfresh : grantBase userId now db = now)
    (hne : plans ≠ [])
    (hcodes : ∀ p ∈ plans,
      p = "7d" ∨ p = "1m" ∨ p = "3m" ∨ p = "6m" ∨ p = "12m") :
    ((grantSubscription userId plan now db).1
        = planAdvance (normalizePlan plan) (max (grantBase userId now db) now) ∧
      alookup userId ((grantSubscription userId plan now db).2).subscriptions
        = some ⟨normalizePlan plan, (grantSubscription userId plan now db).1⟩) ∧
    ∃ u : Int,
      (alookup userId (grantMany userId now plans db).subscriptions).map
        (fun s => s.untilTs) = some u ∧
      now < u ∧
      (plans.map nominalDays).sum - (plans.map toleranceDays).sum
        ≤ dayOfMs u - dayOfMs now ∧
      dayOfMs u - dayOfMs now
        ≤ (plans.map nominalDays).sum + (plans.map toleranceDays).sum := by
  constructor
  · constructor
    · rfl
    · obtain ⟨allocs, hst⟩ := grantSubscription_state userId plan now db
      have h1 : (grantSubscription userId plan now db).1
          = grantUntil userId plan now db := rfl
      rw [h1, hst]
      exact alookup_aupsert_self userId _ db.subscriptions
  · obtain ⟨T, hbT, hlo, hhi, hlast⟩ :=
      grantMany_aux userId now h0 plans db 0 le_rfl (by rw [hfresh]; ring)
    obtain ⟨hlook, hTpos⟩ := hlast hne
    have hday : dayOfMs (now + T * msPerDay) = dayOfMs now + T := by
      unfold dayOfMs msPerDay
      rw [Int.add_mul_ediv_right _ _ (by norm_num)]
    obtain ⟨hsl, hsh⟩ := planSum_bounds plans hcodes
    refine ⟨now + T * msPerDay, hlook, ?_, ?_, ?_⟩
    · have hpos : 0 < T * msPerDay :=
        mul_pos hTpos (show (0 : Int) < msPerDay by decide)
      linarith
    · rw [hday]; omega
    · rw [hday]; omega

theorem claim_C2_extend_witness :
    (0 ≤ (1700000000000 : Int) ∧
      grantBase 1 1700000000000 dbEmpty = 1700000000000 ∧
      (["1m", "3m"] : List String) ≠ [] ∧
      (∀ p ∈ (["1m", "3m"] : List String),
        p = "7d" ∨ p = "1m" ∨ p = "3m" ∨ p = "6m" ∨ p = "12m")) ∧
    (((grantSubscription 1 "1m" 1700000000000 dbEmpty).1
        = planAdvance (normalizePlan "1m")
            (max (grantBase 1 1700000000000 dbEmpty) 1700000000000) ∧
      alookup 1 ((grantSubscription 1 "1m" 1700000000000 dbEmpty).2).subscriptions
        = some ⟨normalizePlan "1m",
            (grantSubscription 1 "1m" 1700000000000 dbEmpty).1⟩) ∧
    ∃ u : Int,
      (alookup 1 (grantMany 1 1700000000000 ["1m", "3m"] dbEmpty).subscriptions).map
        (fun s => s.untilTs) = some u ∧
      (1700000000000 : Int) < u ∧
      ((["1m", "3m"] : List String).map nominalDays).sum
          - ((["1m", "3m"] : List String).map toleranceDays).sum
        ≤ dayOfMs u - dayOfMs 1700000000000 ∧
      dayOfMs u - dayOfMs 1700000000000
        ≤ ((["1m", "3m"] : List String).map nominalDays).sum
          + ((["1m", "3m"] : List String).map toleranceDays).sum) :=
  ⟨⟨by decide, by decide, by decide, by decide⟩,
    claim_C2_extend 1 1700000000000 dbEmpty "1m" ["1m", "3m"]
      (by decide) (by decide) (by decide) (by decide)⟩

/-!
### At-most-once reminders (claim C6)
-/

def countTr (tr : Int × String × Int) : List (Int × String × Int) → Nat
  | [] => 0
  | x :: l => (if x = tr then 1 else 0) + countTr tr l

def countPr (r : Int × Int) : List (Int × Int) → Nat
  | [] => 0
  | x :: l => (if x = r then 1 else 0) + countPr r l

theorem countTr_append (tr : Int × String × Int) (l1 l2 : List (Int × String × Int)) :
    countTr tr (l1 ++ l2) = countTr tr l1 + countTr tr l2 := by
  induction l1 with
  | nil => simp [countTr]
  | cons x rest ih => simp [countTr, ih, Nat.add_assoc]

theorem countPr_append (r : Int × Int) (l1 l2 : List (Int × Int)) :
    countPr r (l1 ++ l2) = countPr r l1 + countPr r l2 := by
  induction l1 with
  | nil => simp [countPr]
  | cons x rest ih => simp [countPr, ih, Nat.add_assoc]

theorem countPr_pos (r : Int × Int) : ∀ l, 0 < countPr r l → r ∈ l := by
  intro l
  induction l with
  | nil => intro h; simp [countPr] at h
  | cons x rest ih =>
    intro h
    by_cases hx : x = r
    · rw [hx]; exact List.mem_cons_self _ _
    · have hc : countPr r (x :: rest) = (if x = r then 1 else 0) + countPr r rest := rfl
      rw [hc, if_neg hx] at h
      exact List.mem_cons_of_mem _ (ih (by simpa using h))

theorem recordNotif_sentLog (tr2 tr : Int × String × Int) (db : DB) :
    countTr tr (recordNotif tr2 db).sentLog
      = countTr tr db.sentLog + (if tr2 = tr then 1 else 0) := by
  show countTr tr (db.sentLog ++ [tr2]) = _
  rw [countTr_append]
  simp [countTr]

theorem recordNotif_mem (tr2 tr : Int × String × Int) (db : DB) :
    tr ∈ (recordNotif tr2 db).subNotifications ↔
      tr ∈ db.subNotifications ∨ tr = tr2 := by
  show tr ∈ (if tr2 ∈ db.subNotifications then db.subNotifications
      else db.subNotifications ++ [tr2]) ↔ _
  split_ifs with h
  · constructor
    · exact Or.inl
    · rintro (h1 | h1)
      · exact h1
      · rw [h1]; exact h
  · simp [List.mem_append]

theorem notifyStep_subs (kind : String) :
    ∀ (rows : List (Int × Int)) (db : DB),
      (notifyStep kind rows db).subscriptions = db.subscriptions := by
  intro rows
  induction rows with
  | nil => intro db; rfl
  | cons r rest ih =>
    intro db
    show (notifyStep kind rest (recordNotif (r.1, kind, r.2) db)).subscriptions = _
    rw [ih]
    rfl

theorem notifyStep_count (kind : String) (u : Int) (k : String) (d : Int) :
    ∀ (rows : List (Int × Int)) (db : DB),
      countTr (u, k, d) (notifyStep kind rows db).sentLog
        = countTr (u, k, d) db.sentLog
          + (if kind = k then countPr (u, d) rows else 0) := by
  intro rows
  induction rows with
  | nil => intro db; simp [notifyStep, countPr]
  | cons r rest ih =>
    intro db
    show countTr (u, k, d)
        (notifyStep kind rest (recordNotif (r.1, kind, r.2) db)).sentLog = _
    rw [ih, recordNotif_sentLog]
    have hcp : countPr (u, d) (r :: rest)
        = (if r = (u, d) then 1 else 0) + countPr (u, d) rest := rfl
    rw [hcp]
    by_cases hk : kind = k
    · subst hk
      rw [if_pos rfl, if_pos rfl]
      by_cases hr : r = (u, d)
      · rw [if_pos hr, if_pos (show (r.1, kind, r.2) = (u, kind, d) by rw [hr])]
        omega
      · have hne : (r.1, kind, r.2) ≠ (u, kind, d) := by
          intro hc
          apply hr
          rcases r with ⟨a, b⟩
          simp only [Prod.mk.injEq] at hc
          simp only [Prod.mk.injEq]
          exact ⟨hc.1, hc.2.2⟩
        rw [if_neg hne, if_neg hr]
        omega
    · rw [if_neg hk, if_neg hk]
      have hne : (r.1, kind, r.2) ≠ (u, k, d) := by
        intro hc
        apply hk
        rcases r with ⟨a, b⟩
        simp only [Prod.mk.injEq] at hc
        exact hc.2.1
      rw [if_neg hne]

theorem notifyStep_mem (kind : String) (tr : Int × String × Int) :
    ∀ (rows : List (Int × Int)) (db : DB),
      tr ∈ (notifyStep kind rows db).subNotifications ↔
        tr ∈ db.subNotifications ∨ ∃ r ∈ rows, tr = (r.1, kind, r.2) := by
  intro rows
  induction rows with
  | nil => intro db; simp [notifyStep]
  | cons r rest ih =>
    intro db
    show tr ∈ (notifyStep kind rest
        (recordNotif (r.1, kind, r.2) db)).subNotifications ↔ _
    rw [ih, recordNotif_mem]
    simp only [List.mem_cons, exists_eq_or_imp, or_assoc]

theorem dueRows_cons (e : Int × Subscription) (subs : List (Int × Subscription))
    (notifs : List (Int × String × Int)) (kind : String)
    (sel : Subscription → Bool) :
    dueRows (e :: subs) notifs kind sel
      = (if sel e.2 ∧ (e.1, kind, dayOfMs e.2.untilTs) ∉ notifs
          then [(e.1, dayOfMs e.2.untilTs)] else [])
        ++ dueRows subs notifs kind sel := by
  by_cases h : sel e.2 ∧ (e.1, kind, dayOfMs e.2.untilTs) ∉ notifs
  · simp [dueRows, List.filterMap_cons, h]
  · simp [dueRows, List.filterMap_cons, h]

theorem dueRows_mem_keys (notifs : List (Int × String × Int)) (kind : String)
    (sel : Subscription → Bool) (u d : Int) :
    ∀ subs : List (Int × Subscription),
      (u, d) ∈ dueRows subs notifs kind sel →
      (u, kind, d) ∉ notifs ∧ u ∈ subs.map Prod.fst := by
  intro subs
  induction subs with
  | nil => intro h; exact absurd h (by simp [dueRows])
  | cons e rest ih =>
    intro h
    rw [dueRows_cons] at h
    rcases List.mem_append.1 h with h1 | h2
    · split_ifs at h1 with hc
      · rw [List.mem_singleton] at h1
        have hu : u = e.1 := congrArg Prod.fst h1
        have hd : d = dayOfMs e.2.untilTs := congrArg Prod.snd h1
        constructor
        · rw [hu, hd]
          exact hc.2
        · rw [List.map_cons, hu]
          exact List.mem_cons_self _ _
      · exact absurd h1 (List.not_mem_nil _)
    · obtain ⟨hn, hk⟩ := ih h2
      refine ⟨hn, ?_⟩
      rw [List.map_cons]
      exact List.mem_cons_of_mem _ hk

theorem dueRows_count_le (notifs : List (Int × String × Int)) (kind : String)
    (sel : Subscription → Bool) (u d : Int) :
    ∀ subs : List (Int × Subscription), (subs.map Prod.fst).Nodup →
      countPr (u, d) (dueRows subs notifs kind sel) ≤ 1 := by
  intro subs
  induction subs with
  | nil => intro _; exact Nat.zero_le 1
  | cons e rest ih =>
    intro hnd
    rw [List.map_cons, List.nodup_cons] at hnd
    rw [dueRows_cons, countPr_append]
    by_cases h : sel e.2 ∧ (e.1, kind, dayOfMs e.2.untilTs) ∉ notifs
    · rw [if_pos h]
      by_cases he : ((e.1, dayOfMs e.2.untilTs) : Int × Int) = (u, d)
      · have hu : e.1 = u := congrArg Prod.fst he
        have h0 : countPr (u, d) (dueRows rest notifs kind sel) = 0 := by
          rcases Nat.eq_zero_or_pos
            (countPr (u, d) (dueRows rest notifs kind sel)) with hz | hpos
          · exact hz
          · exfalso
            obtain ⟨_, hkey⟩ := dueRows_mem_keys notifs kind sel u d rest
              (countPr_pos (u, d) _ hpos)
            rw [← hu] at hkey
            exact hnd.1 hkey
        have h1 : countPr (u, d) [(e.1, dayOfMs e.2.untilTs)] = 1 := by
          show (if (e.1, dayOfMs e.2.untilTs) = (u, d) then 1 else 0) + 0 = 1
          rw [if_pos he]
        rw [h0, h1]
      · have h1 : countPr (u, d) [(e.1, dayOfMs e.2.untilTs)] = 0 := by
          show (if (e.1, dayOfMs e.2.untilTs) = (u, d) then 1 else 0) + 0 = 0
          rw [if_neg he]
        rw [h1]
        have := ih hnd.2
        omega
    · rw [if_neg h]
      have h1 : countPr (u, d) ([] : List (Int × Int)) = 0 := rfl
      rw [h1]
      have := ih hnd.2
      omega

theorem step_all (kind : String) (sel : Subscription → Bool) (db : DB)
    (u : Int) (k : String) (d : Int)
    (hnd : (db.subscriptions.map Prod.fst).Nodup) :
    countTr (u, k, d) (notifyStep kind
        (dueRows db.subscriptions db.subNotifications kind sel) db).sentLog
      + (if (u, k, d) ∈ (notifyStep kind
            (dueRows db.subscriptions db.subNotifications kind sel)
            db).subNotifications
         then 0 else 1)
      ≤ countTr (u, k, d) db.sentLog
        + (if (u, k, d) ∈ db.subNotifications then 0 else 1) ∧
    (notifyStep kind (dueRows db.subscriptions db.subNotifications kind sel)
        db).subscriptions = db.subscriptions ∧
    (∀ tr ∈ db.subNotifications, tr ∈ (notifyStep kind
        (dueRows db.subscriptions db.subNotifications kind sel)
        db).subNotifications) := by
  refine ⟨?_, notifyStep_subs kind _ db, fun tr h =>
    (notifyStep_mem kind tr _ db).2 (Or.inl h)⟩
  rw [notifyStep_count]
  by_cases hk : kind = k
  · subst hk
    rw [if_pos rfl]
    rcases Nat.eq_zero_or_pos (countPr (u, d)
        (dueRows db.subscriptions db.subNotifications kind sel)) with h0 | hpos
    · rw [h0]
      by_cases hpre : (u, kind, d) ∈ db.subNotifications
      · rw [if_pos ((notifyStep_mem kind (u, kind, d)
            (dueRows db.subscriptions db.subNotifications kind sel) db).2
            (Or.inl hpre)), if_pos hpre]
      · rw [if_neg hpre]
        split_ifs <;> omega
    · have hmem := countPr_pos (u, d) _ hpos
      have hle := dueRows_count_le db.subNotifications kind sel u d
        db.subscriptions hnd
      obtain ⟨hnotin, _⟩ := dueRows_mem_keys db.subNotifications kind sel u d
        db.subscriptions hmem
      have hpost : (u, kind, d) ∈ (notifyStep kind
          (dueRows db.subscriptions db.subNotifications kind sel)
          db).subNotifications :=
        (notifyStep_mem kind (u, kind, d)
          (dueRows db.subscriptions db.subNotifications kind sel) db).2
          (Or.inr ⟨(u, d), hmem, rfl⟩)
      rw [if_pos hpost, if_neg hnotin]
      omega
  · rw [if_neg hk]
    by_cases hpre : (u, k, d) ∈ db.subNotifications
    · rw [if_pos ((notifyStep_mem kind (u, k, d)
          (dueRows db.subscriptions db.subNotifications kind sel) db).2
          (Or.inl hpre)), if_pos hpre]
    · rw [if_neg hpre]
      split_ifs <;> omega

theorem run_f_le (now : Int) (db : DB) (u : Int) (k : String) (d : Int)
    (hnd : (db.subscriptions.map Prod.fst).Nodup) :
    (countTr (u, k, d) (runExpiryNotifierOnce now db).sentLog
        + (if (u, k, d) ∈ (runExpiryNotifierOnce now db).subNotifications
           then 0 else 1)
      ≤ countTr (u, k, d) db.sentLog
        + (if (u, k, d) ∈ db.subNotifications then 0 else 1)) ∧
    (runExpiryNotifierOnce now db).subscriptions = db.subscriptions ∧
    (∀ tr ∈ db.subNotifications,
      tr ∈ (runExpiryNotifierOnce now db).subNotifications) := by
  obtain ⟨a3, b3, c3⟩ := step_all "3d" (sel3 now) db u k d hnd
  obtain ⟨a1, b1, c1⟩ := step_all "1d" (sel1 now)
    (notifyStep "3d"
      (dueRows db.subscriptions db.subNotifications "3d" (sel3 now)) db)
    u k d (by rw [b3]; exact hnd)
  obtain ⟨a0, b0, c0⟩ := step_all "expired" (sel0 now)
    (notifyStep "1d"
      (dueRows
        (notifyStep "3d"
          (dueRows db.subscriptions db.subNotifications "3d" (sel3 now))
          db).subscriptions
        (notifyStep "3d"
          (dueRows db.subscriptions db.subNotifications "3d" (sel3 now))
          db).subNotifications
        "1d" (sel1 now))
      (notifyStep "3d"
        (dueRows db.subscriptions db.subNotifications "3d" (sel3 now)) db))
    u k d (by rw [b1, b3]; exact hnd)
  exact ⟨le_trans (le_trans a0 a1) a3, b0.trans (b1.trans b3),
    fun tr h => c0 tr (c1 tr (c3 tr h))⟩

theorem fold_run_f (u : Int) (k : String) (d : Int) :
    ∀ (runs : List Int) (db : DB), (db.subscriptions.map Prod.fst).Nodup →
      (countTr (u, k, d)
          (runs.foldl (fun s t => runExpiryNotifierOnce t s) db).sentLog
        + (if (u, k, d) ∈
              (runs.foldl (fun s t =>
                runExpiryNotifierOnce t s) db).subNotifications
           then 0 else 1)
        ≤ countTr (u, k, d) db.sentLog
          + (if (u, k, d) ∈ db.subNotifications then 0 else 1)) ∧
      (runs.foldl (fun s t => runExpiryNotifierOnce t s) db).subscriptions
        = db.subscriptions ∧
      (∀ tr ∈ db.subNotifications,
        tr ∈ (runs.foldl (fun s t =>
          runExpiryNotifierOnce t s) db).subNotifications) := by
  intro runs
  induction runs with
  | nil => intro db hnd; exact ⟨le_refl _, rfl, fun tr h => h⟩
  | cons t rest ih =>
    intro db hnd
    obtain ⟨a, b, c⟩ := run_f_le t db u k d hnd
    obtain ⟨a2, b2, c2⟩ := ih (runExpiryNotifierOnce t db) (by rw [b]; exact hnd)
    exact ⟨le_trans a2 a, b2.trans b, fun tr h => c2 tr (c tr h)⟩

def db6 : DB :=
  { dbEmpty with subscriptions := [(1, ⟨"1m", 1700000000000 + 3 * msPerDay⟩)] }

/-- C6: across any sequence of notifier scans, at most one reminder is
sent per (user, milestone kind, expiry date) triple: the triple's
sub_notifications record, once present, suppresses every later send and
is never deleted; in particular, two scans half an hour apart over a
subscriber expiring in exactly 3 days send exactly one 3-day reminder. -/
theorem claim_C6_notifier (db : DB) (runs : List Int) (u : Int) (k : String)
    (d : Int)
    (hnd : (db.subscriptions.map Prod.fst).Nodup)
    (h0 : countTr (u, k, d) db.sentLog = 0) :
    countTr (u, k, d)
        (runs.foldl (fun s t => runExpiryNotifierOnce t s) db).sentLog ≤ 1 ∧
    ((u, k, d) ∈ db.subNotifications →
      countTr (u, k, d)
        (runs.foldl (fun s t => runExpiryNotifierOnce t s) db).sentLog = 0) ∧
    (∀ tr ∈ db.subNotifications,
      tr ∈ (runs.foldl (fun s t =>
        runExpiryNotifierOnce t s) db).subNotifications) ∧
    countTr (1, "3d", dayOfMs (1700000000000 + 3 * msPerDay))
      (runExpiryNotifierOnce (1700000000000 + 1800000)
        (runExpiryNotifierOnce 1700000000000 db6)).sentLog = 1 := by
  obtain ⟨hle, hsubs, hmono⟩ := fold_run_f u k d runs db hnd
  refine ⟨?_, ?_, hmono, by decide⟩
  · rw [h0] at hle
    split_ifs at hle <;> omega
  · intro hin
    rw [h0, if_pos hin] at hle
    split_ifs at hle <;> omega

theorem claim_C6_notifier_witness :
    ((db6.subscriptions.map Prod.fst).Nodup ∧
      countTr (1, "3d", dayOfMs (1700000000000 + 3 * msPerDay))
        db6.sentLog = 0) ∧
    (countTr (1, "3d", dayOfMs (1700000000000 + 3 * msPerDay))
        (([1700000000000] : List Int).foldl
          (fun s t => runExpiryNotifierOnce t s) db6).sentLog ≤ 1 ∧
      ((1, "3d", dayOfMs (1700000000000 + 3 * msPerDay)) ∈ db6.subNotifications →
        countTr (1, "3d", dayOfMs (1700000000000 + 3 * msPerDay))
          (([1700000000000] : List Int).foldl
            (fun s t => runExpiryNotifierOnce t s) db6).sentLog = 0) ∧
      (∀ tr ∈ db6.subNotifications,
        tr ∈ (([1700000000000] : List Int).foldl
          (fun s t => runExpiryNotifierOnce t s) db6).subNotifications) ∧
      countTr (1, "3d", dayOfMs (1700000000000 + 3 * msPerDay))
        (runExpiryNotifierOnce (1700000000000 + 1800000)
          (runExpiryNotifierOnce 1700000000000 db6)).sentLog = 1) :=
  ⟨⟨by decide, by decide⟩,
    claim_C6_notifier db6 [1700000000000] 1 "3d"
      (dayOfMs (1700000000000 + 3 * msPerDay)) (by decide) (by decide)⟩
